import Mathlib

/-!
Verification of the core algorithms of the onekey-rag-service repository:
KB budget allocation, hybrid retrieval fusion, inline-citation
sanitization, the answer pipeline's empty-retrieval short circuit, the
job worker's completion transitions, the incremental indexer, and the
crawler's counter bookkeeping.

Python floats are embedded as exact rationals (ℚ), Python ints as ℤ/ℕ,
Python dicts as insertion-ordered association lists with Python dict
update semantics (assignment to an existing key keeps its position;
assignment to a fresh key appends).
-/

namespace OnekeyRag

/-- The whitespace characters stripped by Python `str.strip()` (ASCII
fragment; exotic Unicode spaces are not exercised by any claim). -/
def isPySpace (c : Char) : Bool :=
  (c == ' ') || (c == '\t') || (c == '\n') || (c == '\r') || (c == '\x0b') || (c == '\x0c')

/-- `str.strip()` on a character list: drop whitespace at both ends. -/
def stripChars (cs : List Char) : List Char :=
  (((cs.dropWhile isPySpace).reverse).dropWhile isPySpace).reverse

/-- `str.strip()` on strings. -/
def pyStrip (s : String) : String := String.mk (stripChars s.data)

/-- Association-list model of a Python dict: assignment `d[k] = v`.
If `k` is present its value is replaced in place, otherwise the pair is
appended at the end, matching dict insertion-order semantics. -/
def dInsert {κ α : Type} [DecidableEq κ] (k : κ) (v : α) : List (κ × α) → List (κ × α)
  | [] => [(k, v)]
  | p :: d => if p.1 = k then (k, v) :: d else p :: dInsert k v d

/-- Association-list model of Python `d.get(k)` / `d[k]`. -/
def dLookup {κ α : Type} [DecidableEq κ] (k : κ) : List (κ × α) → Option α
  | [] => none
  | p :: d => if p.1 = k then some p.2 else dLookup k d

/-- Model of Python `d.setdefault(k, v)`. -/
def dSetdefault {κ α : Type} [DecidableEq κ] (k : κ) (v : α) (d : List (κ × α)) : List (κ × α) :=
  if (dLookup k d).isSome then d else d ++ [(k, v)]

/-- Lexicographic comparator combinator: compare by the key `k` first,
fall through to `r` on equal keys.  `lexCons k₁ (lexCons k₂ (lexBase k₃))`
is exactly Python's ascending sort by the tuple `(k₁ x, k₂ x, k₃ x)`. -/
def lexCons {α β : Type} [LinearOrder β] (k : α → β) (r : α → α → Prop) (a b : α) : Prop :=
  k a < k b ∨ (k a = k b ∧ r a b)

/-- Base of a lexicographic comparator: plain `≤` on a final key. -/
def lexBase {α β : Type} [LinearOrder β] (k : α → β) (a b : α) : Prop :=
  k a ≤ k b

instance {α β : Type} [LinearOrder β] (k : α → β) (r : α → α → Prop) [DecidableRel r] :
    DecidableRel (lexCons k r) := fun a b => by unfold lexCons; exact inferInstance

instance {α β : Type} [LinearOrder β] (k : α → β) : DecidableRel (lexBase k) :=
  fun a b => by unfold lexBase; exact inferInstance

instance {α β : Type} [LinearOrder β] (k : α → β) (r : α → α → Prop) [IsTotal α r] :
    IsTotal α (lexCons k r) := by
  constructor
  intro a b
  rcases lt_trichotomy (k a) (k b) with h | h | h
  · exact Or.inl (Or.inl h)
  · rcases IsTotal.total (r := r) a b with hr | hr
    · exact Or.inl (Or.inr ⟨h, hr⟩)
    · exact Or.inr (Or.inr ⟨h.symm, hr⟩)
  · exact Or.inr (Or.inl h)

instance {α β : Type} [LinearOrder β] (k : α → β) (r : α → α → Prop) [IsTrans α r] :
    IsTrans α (lexCons k r) := by
  constructor
  intro a b c hab hbc
  rcases hab with h1 | ⟨h1, hr1⟩
  · rcases hbc with h2 | ⟨h2, _⟩
    · exact Or.inl (h1.trans h2)
    · exact Or.inl (h2 ▸ h1)
  · rcases hbc with h2 | ⟨h2, hr2⟩
    · exact Or.inl (h1 ▸ h2)
    · exact Or.inr ⟨h1.trans h2, IsTrans.trans (r := r) a b c hr1 hr2⟩

instance {α β : Type} [LinearOrder β] (k : α → β) : IsTotal α (lexBase k) := by
  constructor
  intro a b
  unfold lexBase
  exact le_total (k a) (k b)

instance {α β : Type} [LinearOrder β] (k : α → β) : IsTrans α (lexBase k) := by
  constructor
  intro a b c hab hbc
  exact le_trans hab hbc

/-! ## KB allocation (`rag/kb_allocation.py`) -/

/-- `KbBinding` dataclass: weights are Python floats, embedded as ℚ. -/
structure KbBinding where
  kb_id : String
  weight : ℚ
  priority : Int
deriving DecidableEq, Repr

/-- `KbAllocation` dataclass. -/
structure KbAllocation where
  kb_id : String
  top_k : Nat
  weight : ℚ
  priority : Int
deriving DecidableEq, Repr

/-- The cleaning loop of `allocate_top_k` (kb_allocation.py lines 37-45):
drop blank ids, clamp negative weight to 0.  The `math.isfinite` test is
vacuous in exact rational arithmetic; `b.weight or 0.0` and
`b.priority or 0` are identities on the embedded values. -/
def cleanBindings (bindings : List KbBinding) : List KbBinding :=
  bindings.filterMap (fun b =>
    let kid := pyStrip b.kb_id
    let w : ℚ := if b.weight < 0 then 0 else b.weight
    if kid = "" then none
    else some { kb_id := kid, weight := w, priority := b.priority })

/-- Sort key `(-x.weight, x.priority, x.kb_id)` of the `k < n` ranking.
String comparison is Python's code-point lexicographic order, taken on
the character list (`.data`), which carries the same order as `String`. -/
def rankRel (a b : KbBinding) : Prop :=
  lexCons (fun x => -x.weight)
    (lexCons (fun x => x.priority) (lexBase (fun x => x.kb_id.data))) a b

/-- Sort key `(x.priority, x.kb_id)` of the output ordering. -/
def prioRel (a b : KbBinding) : Prop :=
  lexCons (fun x => x.priority) (lexBase (fun x => x.kb_id.data)) a b

/-- The remainder tuples `(frac, weight, -priority, kb_id)` of
kb_allocation.py line 86. -/
abbrev RemTuple : Type := ℚ × ℚ × Int × String

/-- Ascending lexicographic order on remainder tuples. -/
def remAsc (a b : RemTuple) : Prop :=
  lexCons (fun x => x.1)
    (lexCons (fun x => x.2.1)
      (lexCons (fun x => x.2.2.1) (lexBase (fun x => x.2.2.2.data)))) a b

/-- `remainders.sort(reverse=True)`: stable descending sort, i.e. a
stable sort with the flipped comparator. -/
def remDesc (a b : RemTuple) : Prop := remAsc b a

instance : DecidableRel rankRel := fun a b => by unfold rankRel; exact inferInstance

instance : DecidableRel prioRel := fun a b => by unfold prioRel; exact inferInstance

instance : DecidableRel remDesc := fun a b => by unfold remDesc remAsc; exact inferInstance

/-- The loop `for i in range(left): base_alloc[remainders[i % len]] += 1`
(kb_allocation.py lines 88-90); the bumped key is the tuple's 4th field. -/
def bumpLoop (remainders : List RemTuple) (left : Nat) (d : List (String × Nat)) :
    List (String × Nat) :=
  (List.range left).foldl
    (fun d i =>
      let kid := (remainders.getD (i % remainders.length) (0, 0, 0, "")).2.2.2
      dInsert kid ((dLookup kid d).getD 0 + 1) d)
    d

/-- The weight table of kb_allocation.py lines 65-71: the pair
`(w_sum, weights)`; when every weight is 0 (so the list sum is ≤ 0, as
weights are clamped nonnegative) all weights are treated as 1 and
`w_sum = n`. -/
def allocWeights (clean : List KbBinding) : ℚ × List (String × ℚ) :=
  let wSum0 : ℚ := (clean.map (fun b => b.weight)).sum
  if wSum0 ≤ 0 then
    ((clean.length : ℚ), clean.foldl (fun d b => dInsert b.kb_id (1 : ℚ) d) [])
  else
    (wSum0, clean.foldl (fun d b => dInsert b.kb_id b.weight d) [])

/-- `raw_extra` (line 73): `remaining * weights[kid] / w_sum` per binding. -/
def rawExtra (clean : List KbBinding) (remaining : Nat) : List (String × ℚ) :=
  clean.foldl
    (fun d b =>
      dInsert b.kb_id
        ((remaining : ℚ) * ((dLookup b.kb_id (allocWeights clean).2).getD 0) / (allocWeights clean).1) d)
    []

/-- `extra_base` (line 74): floors of the proportional shares. -/
def extraBase (clean : List KbBinding) (remaining : Nat) : List (String × Int) :=
  (rawExtra clean remaining).map (fun p => (p.1, ⌊p.2⌋))

/-- The sorted remainder tuples of kb_allocation.py lines 81-87. -/
def remaindersOf (clean : List KbBinding) (remaining : Nat) : List RemTuple :=
  (clean.map (fun b =>
    let re : ℚ := (dLookup b.kb_id (rawExtra clean remaining)).getD 0
    (re - (⌊re⌋ : ℚ), (dLookup b.kb_id (allocWeights clean).2).getD 0, -b.priority, b.kb_id))).insertionSort
    remDesc

/-- The `base_alloc` dict at the end of kb_allocation.py lines 62-90:
1 per binding, plus the floored proportional share, plus the leftover
units handed out by largest remainder. -/
def baseAlloc (clean : List KbBinding) (k : Nat) : List (String × Nat) :=
  let base0 : List (String × Nat) := clean.foldl (fun d b => dInsert b.kb_id 1 d) []
  let remaining := k - clean.length
  let base1 : List (String × Nat) :=
    (extraBase clean remaining).foldl
      (fun d p => dInsert p.1 ((dLookup p.1 d).getD 0 + (max 0 p.2).toNat) d) base0
  let used : Int := ((extraBase clean remaining).map (fun p => p.2)).sum
  let left : Nat := ((remaining : Int) - used).toNat
  if left = 0 then base1
  else bumpLoop (remaindersOf clean remaining) left base1

/-- `allocate_top_k` (kb_allocation.py lines 22-97), embedded over exact
rationals.  Python dicts keyed by `kb_id` become association lists (the
dict comprehensions over `clean` become `foldl dInsert`); the stages of
the `total_k >= n` branch are split into the named helpers above. -/
def allocate_top_k (bindings : List KbBinding) (total_k : Int) : List KbAllocation :=
  if total_k.toNat = 0 then []
  else
    match cleanBindings bindings with
    | [] => []
    | [b] => [⟨b.kb_id, total_k.toNat, b.weight, b.priority⟩]
    | clean@(_ :: _ :: _) =>
      if total_k.toNat < clean.length then
        ((clean.insertionSort rankRel).take total_k.toNat).map
          (fun b => ⟨b.kb_id, 1, b.weight, b.priority⟩)
      else
        (clean.insertionSort prioRel).map
          (fun b =>
            ⟨b.kb_id, (dLookup b.kb_id (baseAlloc clean total_k.toNat)).getD 0, b.weight, b.priority⟩)

/-- Total allocated budget of an allocation list. -/
def sumTopK (allocs : List KbAllocation) : Nat :=
  (allocs.map (fun a => a.top_k)).sum

/-! ### Dictionary lemmas -/

theorem dLookup_dInsert_self {κ α : Type} [DecidableEq κ] (k : κ) (v : α) (d : List (κ × α)) :
    dLookup k (dInsert k v d) = some v := by
  induction d with
  | nil => simp [dInsert, dLookup]
  | cons p d ih =>
    by_cases h : p.1 = k
    · simp [dInsert, dLookup, h]
    · simp [dInsert, dLookup, h, ih]

theorem dLookup_dInsert_ne {κ α : Type} [DecidableEq κ] {k k' : κ} (v : α) (d : List (κ × α))
    (h : k' ≠ k) : dLookup k (dInsert k' v d) = dLookup k d := by
  induction d with
  | nil => simp [dInsert, dLookup, h]
  | cons p d ih =>
    by_cases hp : p.1 = k'
    · simp [dInsert, dLookup, hp, h, hp ▸ h]
    · simp only [dInsert, hp, if_false, dLookup]
      by_cases hk : p.1 = k
      · simp [dLookup, hk]
      · simp [dLookup, hk, ih]

theorem dLookup_cons_self {κ α : Type} [DecidableEq κ] (k : κ) (v : α) (d : List (κ × α)) :
    dLookup k ((k, v) :: d) = some v := by
  simp [dLookup]

theorem dInsert_of_absent {κ α : Type} [DecidableEq κ] {k : κ} (v : α) {d : List (κ × α)}
    (h : dLookup k d = none) : dInsert k v d = d ++ [(k, v)] := by
  induction d with
  | nil => simp [dInsert]
  | cons p d ih =>
    by_cases hp : p.1 = k
    · simp [dLookup, hp] at h
    · simp only [dLookup, hp, if_false] at h
      simp [dInsert, hp, ih h]

theorem dLookup_append {κ α : Type} [DecidableEq κ] (k : κ) (d e : List (κ × α)) :
    dLookup k (d ++ e) = ((dLookup k d).rec (dLookup k e) (fun v => some v)) := by
  induction d with
  | nil => simp [dLookup]
  | cons p d ih =>
    by_cases hp : p.1 = k
    · simp [dLookup, hp]
    · simp [dLookup, hp, ih]

/-- Folding Python dict assignments `d[key b] = f b` over a list with
pairwise-distinct keys builds exactly the association list of the pairs,
in order. -/
theorem foldl_dInsert_eq_map {κ α β : Type} [DecidableEq κ] (key : β → κ) (f : β → α)
    (l : List β) (acc : List (κ × α)) (hnd : (l.map key).Nodup)
    (hdisj : ∀ b ∈ l, dLookup (key b) acc = none) :
    l.foldl (fun d b => dInsert (key b) (f b) d) acc = acc ++ l.map (fun b => (key b, f b)) := by
  induction l generalizing acc with
  | nil => simp
  | cons b l ih =>
    simp only [List.foldl_cons]
    rw [dInsert_of_absent (f b) (hdisj b (by simp))]
    rw [ih (acc ++ [(key b, f b)]) (by simpa using hnd.of_cons)]
    · simp
    · intro b' hb'
      rw [dLookup_append, hdisj b' (by simp [hb'])]
      have hne : key b ≠ key b' := by
        intro hcontra
        have : key b ∈ l.map key := hcontra ▸ List.mem_map_of_mem key hb'
        simp only [List.map_cons, List.nodup_cons] at hnd
        exact hnd.1 this
      simp [dLookup, hne]

/-- Lookup in a map-built association list with distinct keys. -/
theorem dLookup_map_assoc {κ α β : Type} [DecidableEq κ] (key : β → κ) (f : β → α)
    {l : List β} (hnd : (l.map key).Nodup) {b0 : β} (hb : b0 ∈ l) :
    dLookup (key b0) (l.map fun b => (key b, f b)) = some (f b0) := by
  induction l with
  | nil => cases hb
  | cons b l ih =>
    simp only [List.map_cons, List.nodup_cons] at hnd
    rcases List.mem_cons.mp hb with rfl | hb'
    · simp [dLookup]
    · have hne : key b ≠ key b0 := by
        intro hcontra
        exact hnd.1 (hcontra ▸ List.mem_map_of_mem key hb')
      simp only [List.map_cons, dLookup, hne, if_false]
      exact ih hnd.2 hb'

/-- A Python `d[k] += inc` (on an existing or missing key alike) adds
`inc` to the sum of the dict's values. -/
theorem sum_dInsert_bump {κ : Type} [DecidableEq κ] (k : κ) (inc : Nat) (d : List (κ × Nat)) :
    ((dInsert k ((dLookup k d).getD 0 + inc) d).map Prod.snd).sum
      = ((d.map Prod.snd).sum) + inc := by
  induction d with
  | nil => simp [dInsert, dLookup]
  | cons p d ih =>
    by_cases hp : p.1 = k
    · simp only [dInsert, dLookup, hp, if_true, List.map_cons, List.sum_cons, Option.getD_some]
      omega
    · simp only [dInsert, dLookup, hp, if_false, List.map_cons, List.sum_cons]
      omega

/-- Keys are unchanged by assignment to an existing key. -/
theorem dKeys_dInsert_of_mem {κ α : Type} [DecidableEq κ] {k : κ} (v : α) {d : List (κ × α)}
    (h : k ∈ d.map Prod.fst) : (dInsert k v d).map Prod.fst = d.map Prod.fst := by
  induction d with
  | nil => cases h
  | cons p d ih =>
    by_cases hp : p.1 = k
    · simp [dInsert, hp]
    · simp only [List.map_cons, List.mem_cons] at h
      rcases h with h | h
      · exact absurd h.symm hp
      · simp [dInsert, hp, ih h]

/-- Summing the looked-up value of every key of an association list with
distinct keys gives the sum of the dict's values. -/
theorem sum_map_dLookup {α : Type} (key : α → String) (l : List α) (d : List (String × Nat))
    (hkeys : d.map Prod.fst = l.map key) (hnd : (l.map key).Nodup) :
    ((l.map (fun b => (dLookup (key b) d).getD 0)).sum) = (d.map Prod.snd).sum := by
  induction l generalizing d with
  | nil =>
    have : d = [] := by
      cases d with
      | nil => rfl
      | cons p d => simp at hkeys
    simp [this]
  | cons b l ih =>
    cases d with
    | nil => simp at hkeys
    | cons p d =>
      simp only [List.map_cons, List.cons.injEq] at hkeys
      simp only [List.map_cons, List.nodup_cons] at hnd
      have hlk : dLookup (key b) ((p.1, p.2) :: d) = some p.2 := by
        simp [dLookup, hkeys.1]
      have htail : ∀ b' ∈ l, dLookup (key b') (p :: d) = dLookup (key b') d := by
        intro b' hb'
        have hne : p.1 ≠ key b' := by
          rw [hkeys.1]
          intro hcontra
          exact hnd.1 (hcontra ▸ List.mem_map_of_mem key hb')
        simp [dLookup, hne]
      simp only [List.map_cons, List.sum_cons]
      have : (l.map (fun b' => (dLookup (key b') (p :: d)).getD 0))
          = l.map (fun b' => (dLookup (key b') d).getD 0) := by
        apply List.map_congr_left
        intro b' hb'
        rw [htail b' hb']
      rw [this, ih d hkeys.2 hnd.2]
      have : dLookup (key b) (p :: d) = some p.2 := by
        simpa using hlk
      rw [this]
      simp

/-! ### Allocation lemmas -/

/-- The effective weight used for proportional distribution: all-ones when
the total weight is not positive, otherwise the binding's weight. -/
def effWeight (clean : List KbBinding) (b : KbBinding) : ℚ :=
  if (clean.map (fun x => x.weight)).sum ≤ 0 then 1 else b.weight

/-- The exact (unfloored) proportional share of one binding. -/
def rawShare (clean : List KbBinding) (remaining : Nat) (b : KbBinding) : ℚ :=
  (remaining : ℚ) * effWeight clean b / (allocWeights clean).1

theorem cleanBindings_weight_nonneg (bindings : List KbBinding) :
    ∀ b ∈ cleanBindings bindings, 0 ≤ b.weight := by
  intro b hb
  simp only [cleanBindings, List.mem_filterMap] at hb
  obtain ⟨a, _, ha⟩ := hb
  by_cases h : pyStrip a.kb_id = ""
  · simp [h] at ha
  · simp only [h, if_false, Option.some.injEq] at ha
    subst ha
    by_cases hw : a.weight < 0
    · simp [hw]
    · simp [hw]
      exact le_of_not_lt hw

theorem allocWeights_fst (clean : List KbBinding) :
    (allocWeights clean).1 = (clean.map (effWeight clean)).sum := by
  unfold allocWeights effWeight
  by_cases h : (clean.map (fun x => x.weight)).sum ≤ 0
  · simp only [h, if_true]
    induction clean with
    | nil => simp
    | cons b l ih =>
      simp_all [Nat.cast_add]
      ring
  · simp [h]

theorem allocWeights_fst_pos (clean : List KbBinding) (hne : clean ≠ []) :
    0 < (allocWeights clean).1 := by
  unfold allocWeights
  by_cases h : (clean.map (fun x => x.weight)).sum ≤ 0
  · simp only [h, if_true]
    have : 0 < clean.length := List.length_pos.mpr hne
    exact_mod_cast this
  · simp only [h, if_false]
    exact lt_of_not_le h

theorem effWeight_nonneg (clean : List KbBinding) (h0 : ∀ b ∈ clean, 0 ≤ b.weight)
    (b : KbBinding) (hb : b ∈ clean) : 0 ≤ effWeight clean b := by
  unfold effWeight
  by_cases h : (clean.map (fun x => x.weight)).sum ≤ 0
  · simp [h]
  · simp only [h, if_false]
    exact h0 b hb

theorem allocWeights_snd (clean : List KbBinding)
    (hnd : (clean.map (fun b => b.kb_id)).Nodup) :
    (allocWeights clean).2 = clean.map (fun b => (b.kb_id, effWeight clean b)) := by
  unfold allocWeights effWeight
  by_cases h : (clean.map (fun x => x.weight)).sum ≤ 0
  · simp only [h, if_true]
    rw [foldl_dInsert_eq_map (fun b => b.kb_id) (fun _ => (1 : ℚ)) clean [] hnd
      (by intro b _; rfl)]
    simp
  · simp only [h, if_false]
    rw [foldl_dInsert_eq_map (fun b => b.kb_id) (fun b => b.weight) clean [] hnd
      (by intro b _; rfl)]
    simp

theorem rawExtra_eq (clean : List KbBinding) (remaining : Nat)
    (hnd : (clean.map (fun b => b.kb_id)).Nodup) :
    rawExtra clean remaining = clean.map (fun b => (b.kb_id, rawShare clean remaining b)) := by
  unfold rawExtra
  rw [foldl_dInsert_eq_map (fun b => b.kb_id)
    (fun b => (remaining : ℚ) * ((dLookup b.kb_id (allocWeights clean).2).getD 0) / (allocWeights clean).1)
    clean [] hnd (by intro b _; rfl)]
  simp only [List.nil_append]
  apply List.map_congr_left
  intro b hb
  rw [allocWeights_snd clean hnd]
  rw [dLookup_map_assoc (fun b => b.kb_id) (effWeight clean) hnd hb]
  simp [rawShare]

theorem sum_rawShare (clean : List KbBinding) (remaining : Nat) (hne : clean ≠ []) :
    (clean.map (rawShare clean remaining)).sum = (remaining : ℚ) := by
  have hpos := allocWeights_fst_pos clean hne
  have hS : (allocWeights clean).1 ≠ 0 := ne_of_gt hpos
  unfold rawShare
  have : (clean.map (fun b => (remaining : ℚ) * effWeight clean b / (allocWeights clean).1)).sum
      = (clean.map (fun b => ((remaining : ℚ) / (allocWeights clean).1) * effWeight clean b)).sum := by
    apply congrArg
    apply List.map_congr_left
    intro b _
    ring
  rw [this, List.sum_map_mul_left, ← allocWeights_fst, div_mul_cancel₀ _ hS]

theorem rawShare_nonneg (clean : List KbBinding) (remaining : Nat)
    (h0 : ∀ b ∈ clean, 0 ≤ b.weight) (hne : clean ≠ [])
    (b : KbBinding) (hb : b ∈ clean) : 0 ≤ rawShare clean remaining b := by
  have hpos := allocWeights_fst_pos clean hne
  unfold rawShare
  apply div_nonneg _ (le_of_lt hpos)
  exact mul_nonneg (by positivity) (effWeight_nonneg clean h0 b hb)

/-- A list's elementwise floors sum to at most the sum of the list. -/
theorem sum_floor_le (l : List ℚ) : (((l.map (fun x => ⌊x⌋)).sum : ℤ) : ℚ) ≤ l.sum := by
  induction l with
  | nil => simp
  | cons x l ih =>
    simp only [List.map_cons, List.sum_cons]
    push_cast
    push_cast at ih
    exact add_le_add (Int.floor_le x) ih

theorem sum_toNat_of_nonneg (l : List ℤ) (h : ∀ x ∈ l, 0 ≤ x) :
    ((l.map Int.toNat).sum : ℤ) = l.sum := by
  induction l with
  | nil => simp
  | cons x l ih =>
    simp only [List.map_cons, List.sum_cons, Nat.cast_add]
    rw [Int.toNat_of_nonneg (h x (by simp))]
    rw [ih (fun y hy => h y (by simp [hy]))]

/-- Folding the `base_alloc[kid] += max(0, inc)` updates adds all the
increments to the total of the dict's values. -/
theorem sum_foldl_bumpInt (l : List (String × Int)) (d : List (String × Nat)) :
    (((l.foldl (fun d p => dInsert p.1 ((dLookup p.1 d).getD 0 + (max 0 p.2).toNat) d) d).map
      Prod.snd).sum)
      = (d.map Prod.snd).sum + (l.map (fun p => (max 0 p.2).toNat)).sum := by
  induction l generalizing d with
  | nil => simp
  | cons p l ih =>
    simp only [List.foldl_cons, List.map_cons, List.sum_cons]
    rw [ih]
    rw [sum_dInsert_bump]
    omega

theorem keys_foldl_bumpInt (l : List (String × Int)) (d : List (String × Nat))
    (h : ∀ p ∈ l, p.1 ∈ d.map Prod.fst) :
    ((l.foldl (fun d p => dInsert p.1 ((dLookup p.1 d).getD 0 + (max 0 p.2).toNat) d) d).map
      Prod.fst) = d.map Prod.fst := by
  induction l generalizing d with
  | nil => simp
  | cons p l ih =>
    simp only [List.foldl_cons]
    have hk := dKeys_dInsert_of_mem ((dLookup p.1 d).getD 0 + (max 0 p.2).toNat) (h p (by simp))
    rw [ih _ (by intro q hq; rw [hk]; exact h q (by simp [hq]))]
    exact hk

theorem bumpLoop_sum (rem : List RemTuple) (left : Nat) (d : List (String × Nat)) :
    (((bumpLoop rem left d).map Prod.snd).sum) = (d.map Prod.snd).sum + left := by
  induction left with
  | zero => simp [bumpLoop]
  | succ m ih =>
    unfold bumpLoop
    rw [List.range_succ, List.foldl_append]
    have : (List.range m).foldl
        (fun d i =>
          let kid := (rem.getD (i % rem.length) (0, 0, 0, "")).2.2.2
          dInsert kid ((dLookup kid d).getD 0 + 1) d) d = bumpLoop rem m d := rfl
    rw [this]
    simp only [List.foldl_cons, List.foldl_nil]
    rw [sum_dInsert_bump]
    rw [ih]
    omega

theorem bumpLoop_keys (rem : List RemTuple) (left : Nat) (d : List (String × Nat))
    (hrem : rem ≠ []) (h : ∀ t ∈ rem, t.2.2.2 ∈ d.map Prod.fst) :
    ((bumpLoop rem left d).map Prod.fst) = d.map Prod.fst := by
  induction left with
  | zero => simp [bumpLoop]
  | succ m ih =>
    unfold bumpLoop
    rw [List.range_succ, List.foldl_append]
    have heq : (List.range m).foldl
        (fun d i =>
          let kid := (rem.getD (i % rem.length) (0, 0, 0, "")).2.2.2
          dInsert kid ((dLookup kid d).getD 0 + 1) d) d = bumpLoop rem m d := rfl
    rw [heq]
    simp only [List.foldl_cons, List.foldl_nil]
    have hlen : 0 < rem.length := List.length_pos.mpr hrem
    have hmem : rem.getD (m % rem.length) (0, 0, 0, "") ∈ rem := by
      rw [List.getD_eq_getElem rem _ (Nat.mod_lt m hlen)]
      exact List.getElem_mem _
    rw [dKeys_dInsert_of_mem _ (by rw [ih]; exact h _ hmem)]
    exact ih

theorem base0_eq (clean : List KbBinding) (hnd : (clean.map (fun b => b.kb_id)).Nodup) :
    clean.foldl (fun d b => dInsert b.kb_id (1 : Nat) d) []
      = clean.map (fun b => (b.kb_id, (1 : Nat))) := by
  rw [foldl_dInsert_eq_map (fun b => b.kb_id) (fun _ => (1 : Nat)) clean [] hnd
    (by intro b _; rfl)]
  simp

theorem remaindersOf_kid_mem (clean : List KbBinding) (remaining : Nat)
    (t : RemTuple) (ht : t ∈ remaindersOf clean remaining) :
    t.2.2.2 ∈ clean.map (fun b => b.kb_id) := by
  unfold remaindersOf at ht
  have := (List.perm_insertionSort remDesc _).mem_iff.mp ht
  simp only [List.mem_map] at this
  obtain ⟨b, hb, rfl⟩ := this
  exact List.mem_map_of_mem _ hb

theorem remaindersOf_ne_nil (clean : List KbBinding) (remaining : Nat) (hne : clean ≠ []) :
    remaindersOf clean remaining ≠ [] := by
  unfold remaindersOf
  intro hcontra
  have := (List.perm_insertionSort remDesc
    (clean.map (fun b =>
      let re : ℚ := (dLookup b.kb_id (rawExtra clean remaining)).getD 0
      (re - (⌊re⌋ : ℚ), (dLookup b.kb_id (allocWeights clean).2).getD 0, -b.priority, b.kb_id)))).length_eq
  rw [hcontra] at this
  simp at this
  exact hne (List.eq_nil_of_length_eq_zero this.symm)

theorem baseAlloc_keys (clean : List KbBinding) (k : Nat) (hne : clean ≠ [])
    (hnd : (clean.map (fun b => b.kb_id)).Nodup) :
    (baseAlloc clean k).map Prod.fst = clean.map (fun b => b.kb_id) := by
  unfold baseAlloc
  simp only [base0_eq clean hnd]
  have hkeys0 : (clean.map (fun b => (b.kb_id, (1 : Nat)))).map Prod.fst
      = clean.map (fun b => b.kb_id) := by simp
  have hext : ∀ p ∈ extraBase clean (k - clean.length),
      p.1 ∈ (clean.map (fun b => (b.kb_id, (1 : Nat)))).map Prod.fst := by
    intro p hp
    rw [hkeys0]
    unfold extraBase at hp
    rw [rawExtra_eq clean _ hnd] at hp
    simp only [List.map_map, List.mem_map] at hp
    obtain ⟨b, hb, rfl⟩ := hp
    exact List.mem_map_of_mem _ hb
  have hkeys1 := keys_foldl_bumpInt (extraBase clean (k - clean.length)) _ hext
  by_cases hleft : (((k - clean.length : Nat) : Int)
      - ((extraBase clean (k - clean.length)).map (fun p => p.2)).sum).toNat = 0
  · rw [if_pos hleft, hkeys1, hkeys0]
  · rw [if_neg hleft]
    rw [bumpLoop_keys _ _ _ (remaindersOf_ne_nil clean _ hne)
      (by intro t ht; rw [hkeys1, hkeys0]; exact remaindersOf_kid_mem clean _ t ht)]
    rw [hkeys1, hkeys0]

theorem sum_max_toNat (l : List (String × Int)) (h : ∀ p ∈ l, 0 ≤ p.2) :
    (l.map (fun (p : String × Int) => (max 0 p.2).toNat)).sum
      = ((l.map (fun (p : String × Int) => p.2)).sum).toNat := by
  induction l with
  | nil => simp
  | cons p l ih =>
    simp only [List.map_cons, List.sum_cons]
    have hp := h p (by simp)
    have hrest : ∀ q ∈ l, 0 ≤ q.2 := fun q hq => h q (by simp [hq])
    have hsum : 0 ≤ (l.map (fun q => q.2)).sum := by
      apply List.sum_nonneg
      intro x hx
      simp only [List.mem_map] at hx
      obtain ⟨q, hq, rfl⟩ := hx
      exact hrest q hq
    rw [ih hrest, max_eq_right hp]
    omega

theorem sum_map_one {α : Type} (l : List α) : (l.map (fun _ => (1 : Nat))).sum = l.length := by
  induction l with
  | nil => rfl
  | cons a l ih => simp [ih, Nat.add_comm]

theorem baseAlloc_sum (clean : List KbBinding) (k : Nat) (hne : clean ≠ [])
    (hnd : (clean.map (fun b => b.kb_id)).Nodup)
    (h0 : ∀ b ∈ clean, 0 ≤ b.weight) (hkn : clean.length ≤ k) :
    ((baseAlloc clean k).map Prod.snd).sum = k := by
  have hfloor_nonneg : ∀ b ∈ clean, 0 ≤ ⌊rawShare clean (k - clean.length) b⌋ := by
    intro b hb
    exact Int.floor_nonneg.mpr (rawShare_nonneg clean _ h0 hne b hb)
  have hEB : extraBase clean (k - clean.length)
      = clean.map (fun b => (b.kb_id, ⌊rawShare clean (k - clean.length) b⌋)) := by
    unfold extraBase
    rw [rawExtra_eq clean _ hnd]
    simp [List.map_map]
  have hused_eq : ((extraBase clean (k - clean.length)).map (fun p => p.2)).sum
      = (clean.map (fun b => ⌊rawShare clean (k - clean.length) b⌋)).sum := by
    rw [hEB, List.map_map]
    rfl
  have hused_nonneg : 0 ≤ ((extraBase clean (k - clean.length)).map (fun p => p.2)).sum := by
    rw [hused_eq]
    apply List.sum_nonneg
    intro x hx
    simp only [List.mem_map] at hx
    obtain ⟨b, hb, rfl⟩ := hx
    exact hfloor_nonneg b hb
  have hused_le : ((extraBase clean (k - clean.length)).map (fun p => p.2)).sum
      ≤ ((k - clean.length : Nat) : Int) := by
    rw [hused_eq]
    have h2 := sum_floor_le (clean.map (rawShare clean (k - clean.length)))
    rw [sum_rawShare clean _ hne, List.map_map] at h2
    exact_mod_cast h2
  have hall : ∀ p ∈ extraBase clean (k - clean.length), 0 ≤ p.2 := by
    intro p hp
    rw [hEB] at hp
    simp only [List.mem_map] at hp
    obtain ⟨b, hb, rfl⟩ := hp
    exact hfloor_nonneg b hb
  have hmax_sum := sum_max_toNat (extraBase clean (k - clean.length)) hall
  unfold baseAlloc
  simp only [base0_eq clean hnd]
  have hsum1 := sum_foldl_bumpInt (extraBase clean (k - clean.length))
    (clean.map (fun b => (b.kb_id, (1 : Nat))))
  have hsum0 : ((clean.map (fun b => (b.kb_id, (1 : Nat)))).map Prod.snd).sum = clean.length := by
    rw [List.map_map]
    exact sum_map_one clean
  by_cases hleft : (((k - clean.length : Nat) : Int)
      - ((extraBase clean (k - clean.length)).map (fun p => p.2)).sum).toNat = 0
  · rw [if_pos hleft, hsum1, hsum0, hmax_sum]
    omega
  · rw [if_neg hleft]
    rw [bumpLoop_sum, hsum1, hsum0, hmax_sum]
    omega

/-! ### C1: total allocated budget -/

theorem allocate_sum_core (clean : List KbBinding) (k : Nat) (hne : clean ≠ [])
    (hnd : (clean.map (fun b => b.kb_id)).Nodup)
    (h0 : ∀ b ∈ clean, 0 ≤ b.weight) (hkn : clean.length ≤ k) :
    sumTopK ((clean.insertionSort prioRel).map
      (fun b => ⟨b.kb_id, (dLookup b.kb_id (baseAlloc clean k)).getD 0, b.weight, b.priority⟩))
      = k := by
  unfold sumTopK
  rw [List.map_map]
  have hperm : ((clean.insertionSort prioRel).map
      (fun b => (dLookup b.kb_id (baseAlloc clean k)).getD 0)).Perm
      (clean.map (fun b => (dLookup b.kb_id (baseAlloc clean k)).getD 0)) :=
    (List.perm_insertionSort prioRel clean).map _
  have hsum := hperm.sum_eq
  have hfinal := sum_map_dLookup (fun b => b.kb_id) clean (baseAlloc clean k)
    (baseAlloc_keys clean k hne hnd) hnd
  have := baseAlloc_sum clean k hne hnd h0 hkn
  calc ((clean.insertionSort prioRel).map
        ((fun a => a.top_k) ∘ fun b =>
          (⟨b.kb_id, (dLookup b.kb_id (baseAlloc clean k)).getD 0, b.weight, b.priority⟩ : KbAllocation))).sum
      = ((clean.insertionSort prioRel).map
          (fun b => (dLookup b.kb_id (baseAlloc clean k)).getD 0)).sum := rfl
    _ = (clean.map (fun b => (dLookup b.kb_id (baseAlloc clean k)).getD 0)).sum := hsum
    _ = ((baseAlloc clean k).map Prod.snd).sum := hfinal
    _ = k := this

/-- C1 (amended): for cleaned bindings with pairwise-distinct kb ids,
`allocate_top_k` hands out exactly `total_k` units when the budget covers
every binding, and `min(total_k, n)` units (one per selected binding)
when it does not. -/
theorem C1_allocate_top_k_sum (bindings : List KbBinding) (total_k : Int)
    (hk : 1 ≤ total_k)
    (hn : 1 ≤ (cleanBindings bindings).length)
    (hnd : ((cleanBindings bindings).map (fun b => b.kb_id)).Nodup) :
    ((cleanBindings bindings).length ≤ total_k.toNat →
       sumTopK (allocate_top_k bindings total_k) = total_k.toNat) ∧
    (total_k.toNat < (cleanBindings bindings).length →
       sumTopK (allocate_top_k bindings total_k) = min total_k.toNat (cleanBindings bindings).length) := by
  have hk0 : ¬ (total_k.toNat = 0) := by omega
  have h0 := cleanBindings_weight_nonneg bindings
  unfold allocate_top_k
  rw [if_neg hk0]
  rcases hcl : cleanBindings bindings with _ | ⟨b1, tail⟩
  · rw [hcl] at hn; simp at hn
  · rcases tail with _ | ⟨b2, rest⟩
    · constructor
      · intro _
        simp [sumTopK]
      · intro hlt
        simp only [List.length_singleton] at hlt
        omega
    · rw [hcl] at hn hnd h0
      dsimp only []
      constructor
      · intro hge
        rw [if_neg (not_lt.mpr hge)]
        exact allocate_sum_core (b1 :: b2 :: rest) total_k.toNat (by simp) hnd h0 hge
      · intro hlt
        rw [if_pos hlt]
        unfold sumTopK
        rw [List.map_map]
        have h1 : (((b1 :: b2 :: rest).insertionSort rankRel).take total_k.toNat).map
            ((fun a => a.top_k) ∘ fun b => (⟨b.kb_id, 1, b.weight, b.priority⟩ : KbAllocation))
            = (((b1 :: b2 :: rest).insertionSort rankRel).take total_k.toNat).map
              (fun _ => (1 : Nat)) := rfl
        rw [h1, sum_map_one, List.length_take,
          (List.perm_insertionSort rankRel (b1 :: b2 :: rest)).length_eq]

instance : IsTotal KbBinding rankRel :=
  ⟨fun a b => IsTotal.total
    (r := lexCons (fun x : KbBinding => -x.weight)
      (lexCons (fun x : KbBinding => x.priority) (lexBase (fun x : KbBinding => x.kb_id.data)))) a b⟩

instance : IsTrans KbBinding rankRel :=
  ⟨fun a b c => IsTrans.trans
    (r := lexCons (fun x : KbBinding => -x.weight)
      (lexCons (fun x : KbBinding => x.priority) (lexBase (fun x : KbBinding => x.kb_id.data)))) a b c⟩

instance : IsTotal KbBinding prioRel :=
  ⟨fun a b => IsTotal.total
    (r := lexCons (fun x : KbBinding => x.priority) (lexBase (fun x : KbBinding => x.kb_id.data))) a b⟩

instance : IsTrans KbBinding prioRel :=
  ⟨fun a b c => IsTrans.trans
    (r := lexCons (fun x : KbBinding => x.priority) (lexBase (fun x : KbBinding => x.kb_id.data))) a b c⟩

attribute [local semireducible] Rat.add Rat.sub Rat.mul Rat.inv in
/-- C1 counterexample: the claim quantifies over every binding list whose
cleaned set is nonempty, but with the duplicated kb id "a" and budget 3
the code emits two allocations of 2 units each, summing to 4 ≠ 3. -/
theorem C1_counterexample :
    ((cleanBindings [⟨"a", 1, 0⟩, ⟨"a", 1, 0⟩]).map (fun b => b.kb_id)).dedup = ["a"] ∧
    sumTopK (allocate_top_k [⟨"a", 1, 0⟩, ⟨"a", 1, 0⟩] 3) = 4 := by
  decide

attribute [local semireducible] Rat.add Rat.sub Rat.mul Rat.inv in
/-- C1 witness: at bindings a (weight 2, priority 0) and b (weight 1,
priority 1) with budget 9 the allocations sum to 9. -/
theorem C1_witness :
    sumTopK (allocate_top_k [⟨"a", 2, 0⟩, ⟨"b", 1, 1⟩] 9) = 9 :=
  (C1_allocate_top_k_sum [⟨"a", 2, 0⟩, ⟨"b", 1, 1⟩] 9 (by norm_num) (by decide)
    (by decide)).1 (by decide)

/-! ### C4: output shape and ordering -/

/-- The `(priority, kb_id)` ordering on allocations. -/
def allocPrioRel (a b : KbAllocation) : Prop :=
  lexCons (fun x => x.priority) (lexBase (fun x => x.kb_id.data)) a b

/-- The `(-weight, priority, kb_id)` ranking on allocations. -/
def allocRankRel (a b : KbAllocation) : Prop :=
  lexCons (fun x => -x.weight)
    (lexCons (fun x => x.priority) (lexBase (fun x => x.kb_id.data))) a b

/-- C4 (amended): when the budget covers every cleaned binding the output
has exactly one allocation per cleaned kb id and is sorted by
(priority asc, kb_id asc); when `total_k < n` the output is the
`total_k` top-ranked bindings (weight desc, priority asc, id asc), each
with `top_k = 1` — unselected bindings are omitted, not listed with 0.
"Top-ranked" is stated as a split: the cleaned pool is a permutation of
`sel ++ rest`, the output is exactly `sel` (in ranking order) with one
unit each, and every selected binding ranks at-or-above every omitted
one. -/
theorem C4_allocate_top_k_shape (bindings : List KbBinding) (total_k : Int)
    (hk : 1 ≤ total_k) (hn : 2 ≤ (cleanBindings bindings).length) :
    ((cleanBindings bindings).length ≤ total_k.toNat →
       ((allocate_top_k bindings total_k).map (fun a => a.kb_id)).Perm
         ((cleanBindings bindings).map (fun b => b.kb_id)) ∧
       (allocate_top_k bindings total_k).Pairwise allocPrioRel) ∧
    (total_k.toNat < (cleanBindings bindings).length →
       (allocate_top_k bindings total_k).length = total_k.toNat ∧
       (∀ a ∈ allocate_top_k bindings total_k, a.top_k = 1 ∧
          a.kb_id ∈ (cleanBindings bindings).map (fun b => b.kb_id)) ∧
       (allocate_top_k bindings total_k).Pairwise allocRankRel ∧
       (∃ sel rest : List KbBinding,
          (sel ++ rest).Perm (cleanBindings bindings) ∧
          sel.length = total_k.toNat ∧
          allocate_top_k bindings total_k
            = sel.map (fun b => (⟨b.kb_id, 1, b.weight, b.priority⟩ : KbAllocation)) ∧
          sel.Pairwise rankRel ∧
          ∀ b ∈ sel, ∀ b' ∈ rest, rankRel b b')) := by
  have hk0 : ¬ (total_k.toNat = 0) := by omega
  unfold allocate_top_k
  rw [if_neg hk0]
  rcases hcl : cleanBindings bindings with _ | ⟨b1, tail⟩
  · rw [hcl] at hn; simp at hn
  · rcases tail with _ | ⟨b2, rest⟩
    · rw [hcl] at hn; simp at hn
    · dsimp only []
      constructor
      · intro hge
        rw [if_neg (not_lt.mpr hge)]
        constructor
        · rw [List.map_map]
          exact (List.perm_insertionSort prioRel (b1 :: b2 :: rest)).map _
        · have hs : ((b1 :: b2 :: rest).insertionSort prioRel).Pairwise prioRel :=
            List.sorted_insertionSort prioRel (b1 :: b2 :: rest)
          exact hs.map _ (fun a b h => h)
      · intro hlt
        rw [if_pos hlt]
        refine ⟨?_, ?_, ?_, ?_⟩
        · rw [List.length_map, List.length_take,
            (List.perm_insertionSort rankRel (b1 :: b2 :: rest)).length_eq]
          omega
        · intro a ha
          simp only [List.mem_map] at ha
          obtain ⟨b, hb, rfl⟩ := ha
          refine ⟨rfl, ?_⟩
          have hb1 : b ∈ (b1 :: b2 :: rest).insertionSort rankRel := List.mem_of_mem_take hb
          have hb2 : b ∈ b1 :: b2 :: rest :=
            (List.perm_insertionSort rankRel (b1 :: b2 :: rest)).mem_iff.mp hb1
          exact List.mem_map_of_mem _ hb2
        · have hs : ((b1 :: b2 :: rest).insertionSort rankRel).Pairwise rankRel :=
            List.sorted_insertionSort rankRel (b1 :: b2 :: rest)
          have ht := hs.sublist (List.take_sublist total_k.toNat _)
          exact ht.map _ (fun a b h => h)
        · refine ⟨((b1 :: b2 :: rest).insertionSort rankRel).take total_k.toNat,
            ((b1 :: b2 :: rest).insertionSort rankRel).drop total_k.toNat, ?_, ?_, rfl, ?_, ?_⟩
          · rw [List.take_append_drop]
            exact List.perm_insertionSort rankRel _
          · rw [List.length_take,
              (List.perm_insertionSort rankRel (b1 :: b2 :: rest)).length_eq]
            omega
          · exact (List.sorted_insertionSort rankRel
              (b1 :: b2 :: rest)).sublist (List.take_sublist total_k.toNat _)
          · intro b hb b' hb'
            have hs : ((b1 :: b2 :: rest).insertionSort rankRel).Pairwise rankRel :=
              List.sorted_insertionSort rankRel (b1 :: b2 :: rest)
            rw [← List.take_append_drop total_k.toNat
              ((b1 :: b2 :: rest).insertionSort rankRel)] at hs
            exact (List.pairwise_append.mp hs).2.2 b hb b' hb'

attribute [local semireducible] Rat.add Rat.sub Rat.mul Rat.inv in
/-- C4 counterexample: with three bindings and budget 2 the cleaned
binding "a" receives no allocation entry at all (rather than `top_k = 0`),
and the emitted priorities are [1, 0] — not sorted ascending. -/
theorem C4_counterexample :
    ("a" ∈ (cleanBindings [⟨"a", 1, 2⟩, ⟨"b", 2, 0⟩, ⟨"c", 3, 1⟩]).map (fun b => b.kb_id)) ∧
    ("a" ∉ (allocate_top_k [⟨"a", 1, 2⟩, ⟨"b", 2, 0⟩, ⟨"c", 3, 1⟩] 2).map (fun a => a.kb_id)) ∧
    (allocate_top_k [⟨"a", 1, 2⟩, ⟨"b", 2, 0⟩, ⟨"c", 3, 1⟩] 2).map (fun a => a.priority)
      = [1, 0] := by
  decide

attribute [local semireducible] Rat.add Rat.sub Rat.mul Rat.inv in
/-- C4 witness: at bindings a and b with budget 9, one allocation per
cleaned id, sorted by (priority, kb_id). -/
theorem C4_witness :
    ((allocate_top_k [⟨"a", 2, 0⟩, ⟨"b", 1, 1⟩] 9).map (fun a => a.kb_id)).Perm
      ((cleanBindings [⟨"a", 2, 0⟩, ⟨"b", 1, 1⟩]).map (fun b => b.kb_id)) ∧
    (allocate_top_k [⟨"a", 2, 0⟩, ⟨"b", 1, 1⟩] 9).Pairwise allocPrioRel :=
  (C4_allocate_top_k_shape [⟨"a", 2, 0⟩, ⟨"b", 1, 1⟩] 9 (by norm_num) (by decide)).1
    (by decide)

attribute [local semireducible] Rat.add Rat.sub Rat.mul Rat.inv in
/-- C5: on bindings a (weight 2, priority 0) and b (weight 1, priority 1)
with total budget 9, `allocate_top_k` yields a.top_k = 6 and b.top_k = 3
(base 1 each, floored shares 4 and 2, the leftover unit going to the
larger fractional remainder, a). -/
theorem C5_concrete_allocation :
    allocate_top_k [⟨"a", 2, 0⟩, ⟨"b", 1, 1⟩] 9
      = [⟨"a", 6, 2, 0⟩, ⟨"b", 3, 1, 1⟩] := by
  decide

/-! ## Hybrid retrieval fusion (`rag/pgvector_store.py`) -/

/-- `RetrievedChunk` dataclass; scores are Python floats, embedded as ℚ. -/
structure RetrievedChunk where
  chunk_id : Int
  url : String
  title : String
  section_path : String
  text : String
  score : ℚ
deriving DecidableEq, Repr

/-- `max((c.score for c in l), default=0.0)`: the default applies only to
an empty list. -/
def maxScore (l : List RetrievedChunk) : ℚ :=
  match l with
  | [] => 0
  | c :: rest => (rest.map (fun x => x.score)).foldl max c.score

/-- Python `m or 1.0`: a zero maximum is replaced by 1. -/
def scoreDenom (m : ℚ) : ℚ := if m = 0 then 1 else m

/-- `merged.sort(key=lambda x: x.score, reverse=True)`: stable descending
sort by score. -/
def scoreDescRel (a b : RetrievedChunk) : Prop := b.score ≤ a.score

instance : DecidableRel scoreDescRel := fun a b => by unfold scoreDescRel; exact inferInstance

instance : IsTotal RetrievedChunk scoreDescRel :=
  ⟨fun a b => (le_total b.score a.score).imp (fun h => h) (fun h => h)⟩

instance : IsTrans RetrievedChunk scoreDescRel :=
  ⟨fun _ _ _ hab hbc => le_trans hbc hab⟩

/-- The `combined` dict of pgvector_store.py lines 157-165:
`combined[c.chunk_id] = c` over the vector hits, then
`combined.setdefault(c.chunk_id, c)` over the lexical hits.  (In the
source both dicts are filled inside the same two loops; the dicts are
independent, so the loops are split here.) -/
def fuseCombined (vec lex : List RetrievedChunk) : List (Int × RetrievedChunk) :=
  lex.foldl (fun d c => dSetdefault c.chunk_id c d)
    (vec.foldl (fun d c => dInsert c.chunk_id c d) [])

/-- The `scores` dict of pgvector_store.py lines 158-166:
`scores[id] = scores.get(id, 0.0) + weight * (score / max)` over the
vector hits and then the lexical hits. -/
def fuseScores (vec lex : List RetrievedChunk) (vector_weight bm25_weight vec_max lex_max : ℚ) :
    List (Int × ℚ) :=
  lex.foldl
    (fun d c => dInsert c.chunk_id ((dLookup c.chunk_id d).getD 0 + bm25_weight * (c.score / lex_max)) d)
    (vec.foldl
      (fun d c =>
        dInsert c.chunk_id ((dLookup c.chunk_id d).getD 0 + vector_weight * (c.score / vec_max)) d)
      [])

/-- The fusion phase of `hybrid_search` (pgvector_store.py lines 130-180).
The two retrieval primitives (`similarity_search`, `bm25_search`) are
external database queries; their result lists `vec` and `lex` are the
inputs here, exactly as consumed at lines 144-145. -/
def hybrid_search (vec lex : List RetrievedChunk) (k : Nat)
    (vector_weight bm25_weight : ℚ) : List RetrievedChunk :=
  if vec.isEmpty && lex.isEmpty then []
  else if lex.isEmpty then vec.take k
  else if vec.isEmpty then lex.take k
  else
    let vec_max := scoreDenom (maxScore vec)
    let lex_max := scoreDenom (maxScore lex)
    let merged := (fuseCombined vec lex).map
      (fun p =>
        { chunk_id := p.2.chunk_id, url := p.2.url, title := p.2.title,
          section_path := p.2.section_path, text := p.2.text,
          score := (dLookup p.2.chunk_id
            (fuseScores vec lex vector_weight bm25_weight vec_max lex_max)).getD 0 })
    (merged.insertionSort scoreDescRel).take k

/-- C6: if one retrieval method returns nothing, `hybrid_search` falls
back to the other method's raw results truncated to `k`; if both are
empty it returns the empty list. -/
theorem C6_hybrid_search_fallback (vec lex : List RetrievedChunk) (k : Nat)
    (vector_weight bm25_weight : ℚ) :
    hybrid_search [] lex k vector_weight bm25_weight = lex.take k ∧
    hybrid_search vec [] k vector_weight bm25_weight = vec.take k ∧
    hybrid_search [] [] k vector_weight bm25_weight = [] := by
  refine ⟨?_, ?_, ?_⟩
  · cases lex with
    | nil => simp [hybrid_search]
    | cons c cs => simp [hybrid_search]
  · cases vec with
    | nil => simp [hybrid_search]
    | cons c cs => simp [hybrid_search]
  · simp [hybrid_search]

/-! ### C2: fused score bounds -/

theorem mem_dInsert {κ α : Type} [DecidableEq κ] (k : κ) (v : α) (d : List (κ × α))
    (p : κ × α) (hp : p ∈ dInsert k v d) : p = (k, v) ∨ p ∈ d := by
  induction d with
  | nil => simpa [dInsert] using hp
  | cons q d ih =>
    by_cases hq : q.1 = k
    · simp only [dInsert, hq, if_true, List.mem_cons] at hp
      rcases hp with h | h
      · exact Or.inl h
      · exact Or.inr (by simp [h])
    · simp only [dInsert, hq, if_false, List.mem_cons] at hp
      rcases hp with h | h
      · exact Or.inr (by simp [h])
      · rcases ih h with h1 | h1
        · exact Or.inl h1
        · exact Or.inr (by simp [h1])

theorem mem_dSetdefault {κ α : Type} [DecidableEq κ] (k : κ) (v : α) (d : List (κ × α))
    (p : κ × α) (hp : p ∈ dSetdefault k v d) : p = (k, v) ∨ p ∈ d := by
  unfold dSetdefault at hp
  by_cases h : (dLookup k d).isSome
  · rw [if_pos h] at hp
    exact Or.inr hp
  · rw [if_neg h] at hp
    rcases List.mem_append.mp hp with h1 | h1
    · exact Or.inr h1
    · exact Or.inl (by simpa using h1)

/-- Every value stored in the `combined` dict comes from one of the two
input lists. -/
theorem fuseCombined_values (vec lex : List RetrievedChunk) :
    ∀ p ∈ fuseCombined vec lex, p.2 ∈ vec ∨ p.2 ∈ lex := by
  unfold fuseCombined
  have h1 : ∀ (l : List RetrievedChunk) (d0 : List (Int × RetrievedChunk)),
      (∀ p ∈ d0, p.2 ∈ vec ∨ p.2 ∈ lex) → (∀ c ∈ l, c ∈ vec ∨ c ∈ lex) →
      ∀ p ∈ l.foldl (fun d c => dSetdefault c.chunk_id c d) d0, p.2 ∈ vec ∨ p.2 ∈ lex := by
    intro l
    induction l with
    | nil => intro d0 h0 _ p hp; exact h0 p hp
    | cons c l ih =>
      intro d0 h0 hl p hp
      refine ih _ ?_ (fun c' hc' => hl c' (by simp [hc'])) p hp
      intro q hq
      rcases mem_dSetdefault c.chunk_id c d0 q hq with h | h
      · rw [h]; exact hl c (by simp)
      · exact h0 q h
  have h2 : ∀ (l : List RetrievedChunk) (d0 : List (Int × RetrievedChunk)),
      (∀ p ∈ d0, p.2 ∈ vec ∨ p.2 ∈ lex) → (∀ c ∈ l, c ∈ vec ∨ c ∈ lex) →
      ∀ p ∈ l.foldl (fun d c => dInsert c.chunk_id c d) d0, p.2 ∈ vec ∨ p.2 ∈ lex := by
    intro l
    induction l with
    | nil => intro d0 h0 _ p hp; exact h0 p hp
    | cons c l ih =>
      intro d0 h0 hl p hp
      refine ih _ ?_ (fun c' hc' => hl c' (by simp [hc'])) p hp
      intro q hq
      rcases mem_dInsert c.chunk_id c d0 q hq with h | h
      · rw [h]; exact hl c (by simp)
      · exact h0 q h
  intro p hp
  exact h1 lex _ (h2 vec [] (by simp) (fun c hc => Or.inl hc)) (fun c hc => Or.inr hc) p hp

/-- Accumulation folds with pairwise-distinct keys: looking up `j` returns
the start dict's value plus the unique matching element's contribution. -/
theorem foldl_dAdd_lookup_notmem (key : RetrievedChunk → Int) (f : RetrievedChunk → ℚ)
    (l : List RetrievedChunk) (d0 : List (Int × ℚ)) (j : Int) (h : ∀ c ∈ l, key c ≠ j) :
    dLookup j (l.foldl (fun d c => dInsert (key c) ((dLookup (key c) d).getD 0 + f c) d) d0)
      = dLookup j d0 := by
  induction l generalizing d0 with
  | nil => rfl
  | cons c l ih =>
    simp only [List.foldl_cons]
    rw [ih _ (fun c' hc' => h c' (by simp [hc']))]
    exact dLookup_dInsert_ne _ _ (h c (by simp))

theorem foldl_dAdd_lookup (key : RetrievedChunk → Int) (f : RetrievedChunk → ℚ)
    (l : List RetrievedChunk) (d0 : List (Int × ℚ)) (j : Int)
    (hnd : (l.map key).Nodup) :
    dLookup j (l.foldl (fun d c => dInsert (key c) ((dLookup (key c) d).getD 0 + f c) d) d0)
      = match l.find? (fun c => key c == j) with
        | some c => some ((dLookup j d0).getD 0 + f c)
        | none => dLookup j d0 := by
  induction l generalizing d0 with
  | nil => rfl
  | cons c l ih =>
    simp only [List.map_cons, List.nodup_cons] at hnd
    by_cases hc : key c = j
    · have hfind : (c :: l).find? (fun c => key c == j) = some c := by
        simp [List.find?_cons, hc]
      rw [hfind]
      simp only [List.foldl_cons]
      have hno : ∀ c' ∈ l, key c' ≠ j := by
        intro c' hc' hj
        apply hnd.1
        have hmem : key c' ∈ List.map key l := List.mem_map_of_mem key hc'
        rw [hj, ← hc] at hmem
        exact hmem
      rw [foldl_dAdd_lookup_notmem key f l _ j hno]
      rw [hc, dLookup_dInsert_self]
    · have hfind : (c :: l).find? (fun c => key c == j) = l.find? (fun c => key c == j) := by
        simp [List.find?_cons, hc]
      rw [hfind]
      simp only [List.foldl_cons]
      rw [ih _ hnd.2]
      rw [dLookup_dInsert_ne _ _ hc]

theorem le_maxScore (l : List RetrievedChunk) (c : RetrievedChunk) (hc : c ∈ l) :
    c.score ≤ maxScore l := by
  have haux : ∀ (xs : List ℚ) (init : ℚ), init ≤ xs.foldl max init := by
    intro xs
    induction xs with
    | nil => intro init; exact le_refl _
    | cons x xs ih =>
      intro init
      exact le_trans (le_max_left init x) (ih (max init x))
    
  have haux2 : ∀ (xs : List ℚ) (init : ℚ) (x : ℚ), x ∈ xs → x ≤ xs.foldl max init := by
    intro xs
    induction xs with
    | nil => intro _ x hx; cases hx
    | cons y xs ih =>
      intro init x hx
      rcases List.mem_cons.mp hx with rfl | hx
      · exact le_trans (le_max_right init x) (haux xs (max init x))
      · exact ih (max init y) x hx
  cases l with
  | nil => cases hc
  | cons c0 rest =>
    unfold maxScore
    rcases List.mem_cons.mp hc with rfl | hc
    · exact haux _ _
    · exact haux2 _ _ _ (List.mem_map_of_mem (fun x => x.score) hc)

theorem maxScore_pos (l : List RetrievedChunk) (hne : l ≠ [])
    (hs : ∀ c ∈ l, 0 < c.score) : 0 < maxScore l := by
  cases l with
  | nil => exact absurd rfl hne
  | cons c rest =>
    exact lt_of_lt_of_le (hs c (by simp)) (le_maxScore _ c (by simp))

/-- The fused score of chunk id `j`: the weighted normalized vector
contribution plus the weighted normalized lexical contribution. -/
theorem fuseScores_lookup_getD (vec lex : List RetrievedChunk) (vw bw vm lm : ℚ) (j : Int)
    (hnv : (vec.map (fun c => c.chunk_id)).Nodup)
    (hnl : (lex.map (fun c => c.chunk_id)).Nodup) :
    (dLookup j (fuseScores vec lex vw bw vm lm)).getD 0
      = (match vec.find? (fun c => c.chunk_id == j) with
         | some c => vw * (c.score / vm)
         | none => 0)
        + (match lex.find? (fun c => c.chunk_id == j) with
           | some c => bw * (c.score / lm)
           | none => 0) := by
  unfold fuseScores
  rw [foldl_dAdd_lookup (fun c => c.chunk_id) (fun c => bw * (c.score / lm)) lex _ j hnl]
  rw [foldl_dAdd_lookup (fun c => c.chunk_id) (fun c => vw * (c.score / vm)) vec _ j hnv]
  cases hfl : lex.find? (fun c => c.chunk_id == j) <;>
    cases hfv : vec.find? (fun c => c.chunk_id == j) <;>
      simp [dLookup]

/-- C2 (amended): with both candidate lists nonempty with distinct chunk
ids, strictly positive weights and strictly positive raw scores, every
chunk returned by `hybrid_search` has a combined score in
`(0, vector_weight + bm25_weight]` — within `[0, vw + bw]` and nonzero,
so a returned (hence present) chunk never scores 0. -/
theorem C2_hybrid_search_score_bounds (vec lex : List RetrievedChunk) (k : Nat)
    (vector_weight bm25_weight : ℚ)
    (hve : vec ≠ []) (hle : lex ≠ [])
    (hvw : 0 < vector_weight) (hbw : 0 < bm25_weight)
    (hsv : ∀ c ∈ vec, 0 < c.score) (hsl : ∀ c ∈ lex, 0 < c.score)
    (hnv : (vec.map (fun c => c.chunk_id)).Nodup)
    (hnl : (lex.map (fun c => c.chunk_id)).Nodup) :
    ∀ c ∈ hybrid_search vec lex k vector_weight bm25_weight,
      0 < c.score ∧ c.score ≤ vector_weight + bm25_weight := by
  have hvmax := maxScore_pos vec hve hsv
  have hlmax := maxScore_pos lex hle hsl
  have hvm : scoreDenom (maxScore vec) = maxScore vec := by
    unfold scoreDenom
    rw [if_neg (ne_of_gt hvmax)]
  have hlm : scoreDenom (maxScore lex) = maxScore lex := by
    unfold scoreDenom
    rw [if_neg (ne_of_gt hlmax)]
  have hred : hybrid_search vec lex k vector_weight bm25_weight
      = (((fuseCombined vec lex).map
          (fun p =>
            ({ chunk_id := p.2.chunk_id, url := p.2.url, title := p.2.title,
               section_path := p.2.section_path, text := p.2.text,
               score := (dLookup p.2.chunk_id
                 (fuseScores vec lex vector_weight bm25_weight
                   (scoreDenom (maxScore vec)) (scoreDenom (maxScore lex)))).getD 0 }
              : RetrievedChunk))).insertionSort scoreDescRel).take k := by
    have h1 : vec.isEmpty = false := by
      cases vec
      · exact absurd rfl hve
      · rfl
    have h2 : lex.isEmpty = false := by
      cases lex
      · exact absurd rfl hle
      · rfl
    unfold hybrid_search
    rw [h1, h2]
    simp
  intro c hc
  rw [hred] at hc
  have hc1 := List.mem_of_mem_take hc
  have hc2 := (List.perm_insertionSort scoreDescRel _).mem_iff.mp hc1
  simp only [List.mem_map] at hc2
  obtain ⟨p, hp, rfl⟩ := hc2
  have hmem := fuseCombined_values vec lex p hp
  dsimp only
  rw [fuseScores_lookup_getD vec lex _ _ _ _ _ hnv hnl]
  have hvecPart : ∀ c1, vec.find? (fun c => c.chunk_id == p.2.chunk_id) = some c1 →
      0 < vector_weight * (c1.score / scoreDenom (maxScore vec)) ∧
      vector_weight * (c1.score / scoreDenom (maxScore vec)) ≤ vector_weight := by
    intro c1 hf
    have hc1mem := List.mem_of_find?_eq_some hf
    rw [hvm]
    constructor
    · exact mul_pos hvw (div_pos (hsv c1 hc1mem) hvmax)
    · have : c1.score / maxScore vec ≤ 1 := by
        rw [div_le_one hvmax]
        exact le_maxScore vec c1 hc1mem
      calc vector_weight * (c1.score / maxScore vec) ≤ vector_weight * 1 :=
            mul_le_mul_of_nonneg_left this (le_of_lt hvw)
        _ = vector_weight := mul_one _
  have hlexPart : ∀ c2, lex.find? (fun c => c.chunk_id == p.2.chunk_id) = some c2 →
      0 < bm25_weight * (c2.score / scoreDenom (maxScore lex)) ∧
      bm25_weight * (c2.score / scoreDenom (maxScore lex)) ≤ bm25_weight := by
    intro c2 hf
    have hc2mem := List.mem_of_find?_eq_some hf
    rw [hlm]
    constructor
    · exact mul_pos hbw (div_pos (hsl c2 hc2mem) hlmax)
    · have : c2.score / maxScore lex ≤ 1 := by
        rw [div_le_one hlmax]
        exact le_maxScore lex c2 hc2mem
      calc bm25_weight * (c2.score / maxScore lex) ≤ bm25_weight * 1 :=
            mul_le_mul_of_nonneg_left this (le_of_lt hbw)
        _ = bm25_weight := mul_one _
  cases hfv : vec.find? (fun c => c.chunk_id == p.2.chunk_id) with
  | some c1 =>
    cases hfl : lex.find? (fun c => c.chunk_id == p.2.chunk_id) with
    | some c2 =>
      have h1 := hvecPart c1 hfv
      have h2 := hlexPart c2 hfl
      constructor
      · exact add_pos h1.1 h2.1
      · exact add_le_add h1.2 h2.2
    | none =>
      have h1 := hvecPart c1 hfv
      constructor
      · simpa using h1.1
      · have : vector_weight ≤ vector_weight + bm25_weight := le_add_of_nonneg_right (le_of_lt hbw)
        simpa using le_trans h1.2 this
  | none =>
    cases hfl : lex.find? (fun c => c.chunk_id == p.2.chunk_id) with
    | some c2 =>
      have h2 := hlexPart c2 hfl
      constructor
      · simpa using h2.1
      · have : bm25_weight ≤ vector_weight + bm25_weight := le_add_of_nonneg_left (le_of_lt hvw)
        simpa using le_trans h2.2 this
    | none =>
      exfalso
      rcases hmem with hmv | hml
      · have := List.find?_eq_none.mp hfv p.2 hmv
        simp at this
      · have := List.find?_eq_none.mp hfl p.2 hml
        simp at this

attribute [local semireducible] Rat.add Rat.sub Rat.mul Rat.inv in
/-- C2 counterexample: with a vector candidate of raw score 0 the
normalizing denominator falls back to 1, the chunk is returned with
fused score 0 although it is present in the vector list — "score 0 only
if absent from both lists" fails. -/
theorem C2_counterexample :
    ¬ (∀ c ∈ hybrid_search [⟨1, "", "", "", "", 0⟩] [⟨2, "", "", "", "", 1⟩] 2 1 1,
        c.score = 0 →
          c.chunk_id ∉ ([⟨1, "", "", "", "", 0⟩] : List RetrievedChunk).map
            (fun c => c.chunk_id) ∧
          c.chunk_id ∉ ([⟨2, "", "", "", "", 1⟩] : List RetrievedChunk).map
            (fun c => c.chunk_id)) := by
  decide

attribute [local semireducible] Rat.add Rat.sub Rat.mul Rat.inv in
/-- C2 witness: concrete fused scores stay within `(0, vw + bw]`. -/
theorem C2_witness :
    0 < (⟨2, "", "", "", "", 2⟩ : RetrievedChunk).score ∧
    (⟨2, "", "", "", "", 2⟩ : RetrievedChunk).score ≤ 1 + 2 :=
  C2_hybrid_search_score_bounds [⟨1, "", "", "", "", 2⟩] [⟨2, "", "", "", "", 1⟩] 5 1 2
    (by decide) (by decide) (by decide) (by decide) (by decide) (by decide) (by decide)
    (by decide) ⟨2, "", "", "", "", 2⟩ (by decide)

/-! ## Inline citation sanitization (`rag/pipeline.py` lines 76-111) -/

/-- Numeric value of a digit character. -/
def digitVal (c : Char) : Nat := c.toNat - 48

/-- Numeric value of a digit string, as computed by Python `int(...)`. -/
def digitsVal (ds : List Char) : Nat := ds.foldl (fun n c => 10 * n + digitVal c) 0

/-- Greedy 3-digit attempt of the regex `\\[(\\d{1,3})\\]` at the head. -/
def try3 : List Char → Option (List Char × List Char)
  | '[' :: a :: b :: c :: ']' :: r =>
      if a.isDigit && b.isDigit && c.isDigit then some ([a, b, c], r) else none
  | _ => none

/-- 2-digit attempt. -/
def try2 : List Char → Option (List Char × List Char)
  | '[' :: a :: b :: ']' :: r =>
      if a.isDigit && b.isDigit then some ([a, b], r) else none
  | _ => none

/-- 1-digit attempt. -/
def try1 : List Char → Option (List Char × List Char)
  | '[' :: a :: ']' :: r =>
      if a.isDigit then some ([a], r) else none
  | _ => none

/-- A match of `\\[(\\d{1,3})\\]` at the head of the text: the greedy
quantifier takes three digits, then backtracks to two, then one.
Returns the captured digits and the remaining text. -/
def tryCite (cs : List Char) : Option (List Char × List Char) :=
  match try3 cs with
  | some x => some x
  | none =>
    match try2 cs with
    | some x => some x
    | none => try1 cs

/-- `_CITATION_RE.sub(_repl, text)` (pipeline.py lines 102-109): walk the
text, replace each non-overlapping leftmost match by itself when its
value lies in `1..max_ref` and by the empty string otherwise.  The fuel
is the remaining text length (each step consumes at least one char). -/
def citeSubGo (max_ref : Nat) : Nat → List Char → List Char
  | 0, cs => cs
  | _ + 1, [] => []
  | fuel + 1, ch :: cs =>
    match tryCite (ch :: cs) with
    | some (ds, r) =>
        (if 1 ≤ digitsVal ds ∧ digitsVal ds ≤ max_ref then '[' :: (ds ++ [']']) else [])
          ++ citeSubGo max_ref fuel r
    | none => ch :: citeSubGo max_ref fuel cs

/-- The regex substitution pass over the whole text. -/
def citeSub (max_ref : Nat) (cs : List Char) : List Char := citeSubGo max_ref cs.length cs

/-- `re.sub(r" {2,}", " ", ...)`: collapse runs of two or more spaces. -/
def collapseSpaces : List Char → List Char
  | [] => []
  | ' ' :: ' ' :: rest => collapseSpaces (' ' :: rest)
  | c :: rest => c :: collapseSpaces rest

/-- `_sanitize_inline_citations` (pipeline.py lines 97-111): regex
substitution, space collapsing, then strip. -/
def sanitize_inline_citations (text : List Char) (max_ref : Nat) : List Char :=
  stripChars (collapseSpaces (citeSub max_ref text))

/-- A token of the citation scan: either a plain character or a matched
1-to-3-digit bracketed reference. -/
inductive CiteTok where
  | lit (ch : Char)
  | cite (ds : List Char)
deriving DecidableEq, Repr

/-- The regex engine's view of the text: the non-overlapping leftmost
matches of `\\[(\\d{1,3})\\]` and the characters between them. -/
def scanGo : Nat → List Char → List CiteTok
  | 0, _ => []
  | _ + 1, [] => []
  | fuel + 1, ch :: cs =>
    match tryCite (ch :: cs) with
    | some (ds, r) => CiteTok.cite ds :: scanGo fuel r
    | none => CiteTok.lit ch :: scanGo fuel cs

/-- The token list of a text. -/
def scanCitations (cs : List Char) : List CiteTok := scanGo cs.length cs

/-- Render tokens back to text. -/
def renderToks (ts : List CiteTok) : List Char :=
  (ts.map (fun t =>
    match t with
    | CiteTok.lit ch => [ch]
    | CiteTok.cite ds => '[' :: (ds ++ [']']))).flatten

/-- The specification-side keep predicate: a scanned citation survives
exactly when its value lies in `1..max_ref`. -/
def keepTok (max_ref : Nat) : CiteTok → Bool
  | CiteTok.lit _ => true
  | CiteTok.cite ds => decide (1 ≤ digitsVal ds ∧ digitsVal ds ≤ max_ref)

/-- `_has_any_inline_citation` (pipeline.py lines 114-115). -/
def has_any_inline_citation (cs : List Char) : Bool :=
  (scanCitations cs).any (fun t =>
    match t with
    | CiteTok.lit _ => false
    | CiteTok.cite _ => true)

theorem try3_length {cs ds r : List Char} (h : try3 cs = some (ds, r)) :
    r.length + 5 = cs.length := by
  unfold try3 at h
  split at h
  · split at h
    · injection h with h1
      injection h1 with h2 h3
      subst h3
      simp
    · exact absurd h (by simp)
  · exact absurd h (by simp)

theorem try2_length {cs ds r : List Char} (h : try2 cs = some (ds, r)) :
    r.length + 4 = cs.length := by
  unfold try2 at h
  split at h
  · split at h
    · injection h with h1
      injection h1 with h2 h3
      subst h3
      simp
    · exact absurd h (by simp)
  · exact absurd h (by simp)

theorem try1_length {cs ds r : List Char} (h : try1 cs = some (ds, r)) :
    r.length + 3 = cs.length := by
  unfold try1 at h
  split at h
  · split at h
    · injection h with h1
      injection h1 with h2 h3
      subst h3
      simp
    · exact absurd h (by simp)
  · exact absurd h (by simp)

theorem tryCite_length {cs ds r : List Char} (h : tryCite cs = some (ds, r)) :
    r.length + 3 ≤ cs.length := by
  unfold tryCite at h
  cases h3 : try3 cs with
  | some x =>
    rw [h3] at h
    injection h with h1
    subst h1
    have := try3_length h3
    omega
  | none =>
    rw [h3] at h
    cases h2 : try2 cs with
    | some x =>
      rw [h2] at h
      injection h with h1
      subst h1
      have := try2_length h2
      omega
    | none =>
      rw [h2] at h
      have := try1_length h
      omega

theorem renderToks_cons (t : CiteTok) (ts : List CiteTok) :
    renderToks (t :: ts)
      = (match t with
         | CiteTok.lit ch => [ch]
         | CiteTok.cite ds => '[' :: (ds ++ [']'])) ++ renderToks ts := by
  simp [renderToks]

theorem citeSubGo_eq_render (max_ref : Nat) (fuel : Nat) :
    ∀ cs : List Char, cs.length ≤ fuel →
      citeSubGo max_ref fuel cs = renderToks ((scanGo fuel cs).filter (keepTok max_ref)) := by
  induction fuel with
  | zero =>
    intro cs hcs
    have : cs = [] := List.eq_nil_of_length_eq_zero (Nat.le_zero.mp hcs)
    subst this
    simp [citeSubGo, scanGo, renderToks]
  | succ fuel ih =>
    intro cs hcs
    cases cs with
    | nil => simp [citeSubGo, scanGo, renderToks]
    | cons ch cs =>
      simp only [citeSubGo, scanGo]
      cases htc : tryCite (ch :: cs) with
      | some p =>
        obtain ⟨ds, r⟩ := p
        have hlen := tryCite_length htc
        simp only [List.length_cons] at hcs
        have hr : r.length ≤ fuel := by
          simp only [List.length_cons] at hlen
          omega
        simp only [List.filter_cons]
        by_cases hkeep : 1 ≤ digitsVal ds ∧ digitsVal ds ≤ max_ref
        · have hkt : keepTok max_ref (CiteTok.cite ds) = true := by simp [keepTok, hkeep]
          rw [if_pos hkeep, ih r hr]
          simp [hkt, renderToks_cons]
        · have hkt : keepTok max_ref (CiteTok.cite ds) = false := by
            simp only [keepTok, decide_eq_false_iff_not]
            exact hkeep
          rw [if_neg hkeep, ih r hr]
          simp [hkt]
      | none =>
        simp only [List.length_cons] at hcs
        simp only [List.filter_cons, keepTok]
        rw [ih cs (by omega)]
        simp [renderToks_cons]

/-- C3 (amended): the sanitizer deletes exactly the out-of-range scanned
citations and keeps the in-range ones verbatim, then collapses runs of
spaces and strips. -/
theorem C3_sanitize_inline_citations (text : List Char) (max_ref : Nat) :
    sanitize_inline_citations text max_ref
      = stripChars (collapseSpaces
          (renderToks ((scanCitations text).filter (keepTok max_ref)))) := by
  unfold sanitize_inline_citations citeSub scanCitations
  rw [citeSubGo_eq_render max_ref text.length text (le_refl _)]

/-- C3 counterexample: the reference `[1000]` has four digits, lies
outside `1..3`, and yet survives sanitization verbatim, because the
regex only matches 1-to-3-digit references. -/
theorem C3_counterexample :
    sanitize_inline_citations ("[1000]".data) 3 = ("[1000]".data) ∧
    ¬ (1 ≤ 1000 ∧ 1000 ≤ 3) := by
  decide

/-! ## Job worker completion (`worker.py` lines 130-204) -/

/-- The fields of a `Job` row that `_process_job` touches.  `attempts` is
the `progress._meta.attempts` counter (0 when absent, per
`int(meta.get("attempts") or 0)`); `result` models the method-specific
progress payload stamped on success. -/
structure JobRec where
  status : String
  error : String
  finished_at : Option Nat
  attempts : Nat
  worker_id : String
  result : Option String
deriving DecidableEq, Repr

/-- `_process_job` (worker.py lines 130-204) on one claimed job, single
worker: phase 1 records the incremented attempt count and worker id;
the execution phase is abstracted as its outcome `exec` (`.ok` = the
crawl/index handler returned a progress dict, `.error` = it raised, the
unknown-type `RuntimeError` included); phase 3 finalizes the row.  `now`
stands for `_utcnow()` at finalization. -/
def process_job (job : JobRec) (worker_id : String) (max_attempts : Int)
    (exec : Except String String) (now : Nat) : JobRec :=
  if job.status ≠ "running" then job
  else
    let attempts := job.attempts + 1
    let job1 : JobRec := { job with attempts := attempts, worker_id := worker_id }
    match exec with
    | Except.error e =>
      if 0 < max_attempts ∧ (attempts : Int) < max_attempts then
        { job1 with error := e, status := "queued" }
      else
        { job1 with error := e, status := "failed", finished_at := some now }
    | Except.ok res =>
      { job1 with status := "succeeded", finished_at := some now, result := some res }

/-- C8: success finalizes to `succeeded` with a finish timestamp and the
result summary stamped into progress; an exception requeues the job when
the recorded attempt count is below the max-attempts cap and otherwise
marks it `failed`, retaining the error text in both cases. -/
theorem C8_process_job_completion (job : JobRec) (worker_id : String) (max_attempts : Int)
    (exec : Except String String) (now : Nat) (hrun : job.status = "running") :
    (∀ res, exec = Except.ok res →
       (process_job job worker_id max_attempts exec now).status = "succeeded" ∧
       (process_job job worker_id max_attempts exec now).finished_at = some now ∧
       (process_job job worker_id max_attempts exec now).result = some res) ∧
    (∀ e, exec = Except.error e →
       (((job.attempts + 1 : Nat) : Int) < max_attempts →
          (process_job job worker_id max_attempts exec now).status = "queued" ∧
          (process_job job worker_id max_attempts exec now).error = e) ∧
       (¬ (((job.attempts + 1 : Nat) : Int) < max_attempts) →
          (process_job job worker_id max_attempts exec now).status = "failed" ∧
          (process_job job worker_id max_attempts exec now).error = e)) := by
  have hguard : ¬ (job.status ≠ "running") := by simp [hrun]
  constructor
  · intro res hres
    subst hres
    simp [process_job, hguard]
  · intro e he
    subst he
    constructor
    · intro hlt
      have hcond : 0 < max_attempts ∧ ((job.attempts + 1 : Nat) : Int) < max_attempts := by
        constructor
        · omega
        · exact hlt
      have hcast : ((job.attempts : Int) + 1) < max_attempts := by push_cast at hlt; exact hlt
      simp [process_job, hguard, hcond, hcast]
    · intro hge
      have hcond : ¬ (0 < max_attempts ∧ ((job.attempts + 1 : Nat) : Int) < max_attempts) := by
        intro hc
        exact hge hc.2
      have hcast : ¬ (((job.attempts : Int) + 1) < max_attempts) := by
        push_cast at hge
        exact hge
      simp [process_job, hguard, hcond, hcast]

/-- C8 witness: a running job with one prior attempt, cap 3: a failing
execution is requeued with the error recorded; the same job with a
successful execution is finalized as succeeded. -/
theorem C8_witness :
    (process_job ⟨"running", "", none, 1, "w0", none⟩ "w1" 3 (Except.error "boom") 42).status
      = "queued" ∧
    (process_job ⟨"running", "", none, 1, "w0", none⟩ "w1" 3 (Except.error "boom") 42).error
      = "boom" :=
  ((C8_process_job_completion ⟨"running", "", none, 1, "w0", none⟩ "w1" 3
    (Except.error "boom") 42 rfl).2 "boom" rfl).1 (by decide)

/-! ## Incremental indexer (`indexing/pipeline.py`) -/

/-- The `Page` columns the indexer reads or writes. -/
structure IdxPage where
  id : Nat
  workspace_id : String
  kb_id : String
  http_status : Nat
  content_markdown : String
  content_hash : String
  indexed_content_hash : String
deriving DecidableEq, Repr

/-- A `Chunk` row as inserted by `_rebuild_page_chunks`. -/
structure IdxChunk where
  page_id : Nat
  chunk_index : Nat
  section_path : String
  chunk_text : String
  chunk_hash : String
  token_count : Nat
  embedding : List ℚ
  embedding_model : String
deriving DecidableEq, Repr

/-- The items produced by `chunk_markdown_by_headers` (section path and
text), as consumed at indexing/pipeline.py lines 79-95. -/
structure ChunkItem where
  section_path : String
  text : String
deriving DecidableEq, Repr

/-- `_approx_token_count` (indexing/pipeline.py lines 100-102). -/
def approx_token_count (text : String) : Nat := max 1 (text.length / 4)

/-- `_rebuild_page_chunks` (indexing/pipeline.py lines 59-97): delete the
page's chunk rows, re-chunk, embed, insert.  The chunker
(`chunk_markdown_by_headers`, with the configured size/overlap applied)
and the embeddings provider are external to this module and passed as
functions; `sha` is `utils.sha256_text`.  `zip(..., strict=False)`
truncates to the shorter list, as `List.zip` does. -/
def rebuild_page_chunks (chunkFn : String → List ChunkItem)
    (embedFn : List String → List (List ℚ)) (sha : String → String)
    (embedding_model : String) (chunks : List IdxChunk) (page : IdxPage) :
    List IdxChunk × Nat :=
  let remainingChunks := chunks.filter (fun c => decide (c.page_id ≠ page.id))
  let chunk_items := chunkFn page.content_markdown
  if chunk_items.isEmpty then (remainingChunks, 0)
  else
    let vectors := embedFn (chunk_items.map (fun ci => ci.text))
    let rows := (chunk_items.zip vectors).enum.map
      (fun p =>
        ({ page_id := page.id, chunk_index := p.1, section_path := p.2.1.section_path,
           chunk_text := p.2.1.text, chunk_hash := sha p.2.1.text,
           token_count := approx_token_count p.2.1.text, embedding := p.2.2,
           embedding_model := embedding_model } : IdxChunk))
    (remainingChunks ++ rows, rows.length)

/-- The page-selection predicate of indexing/pipeline.py lines 27-34. -/
def pageSelected (workspace_id kb_id : String) (p : IdxPage) : Prop :=
  p.workspace_id = workspace_id ∧ p.kb_id = kb_id ∧ p.http_status < 400

/-- The incremental skip test of indexing/pipeline.py lines 40-42. -/
def pageSkipped (mode : String) (p : IdxPage) : Prop :=
  mode = "incremental" ∧ p.indexed_content_hash ≠ "" ∧ p.indexed_content_hash = p.content_hash

instance (workspace_id kb_id : String) : DecidablePred (pageSelected workspace_id kb_id) :=
  fun p => by unfold pageSelected; exact inferInstance

instance (mode : String) : DecidablePred (pageSkipped mode) :=
  fun p => by unfold pageSkipped; exact inferInstance

/-- One iteration of the page loop (indexing/pipeline.py lines 39-54)
acting on (chunk rows, indexed_pages, total_chunks). -/
def indexStep (chunkFn : String → List ChunkItem) (embedFn : List String → List (List ℚ))
    (sha : String → String) (embedding_model : String) (mode : String)
    (acc : List IdxChunk × Nat × Nat) (p : IdxPage) : List IdxChunk × Nat × Nat :=
  if pageSkipped mode p then acc
  else
    let r := rebuild_page_chunks chunkFn embedFn sha embedding_model acc.1 p
    (r.1, acc.2.1 + 1, acc.2.2 + r.2)

/-- `index_pages_to_chunks` (indexing/pipeline.py lines 16-57).  The
scanned pages and the chunk table are the store state; the result is
(pages, chunks, pages indexed, chunks inserted).  Page mutation
(`page.indexed_content_hash = page.content_hash`) is modelled by mapping
over the page list. -/
def index_pages_to_chunks (chunkFn : String → List ChunkItem)
    (embedFn : List String → List (List ℚ)) (sha : String → String)
    (embedding_model_name : String) (workspace_id kb_id : String) (mode : String)
    (pages : List IdxPage) (chunks : List IdxChunk) :
    List IdxPage × List IdxChunk × Nat × Nat :=
  let selected := pages.filter (fun p => decide (pageSelected workspace_id kb_id p))
  let res := selected.foldl (indexStep chunkFn embedFn sha embedding_model_name mode) (chunks, 0, 0)
  let pagesAfter := pages.map (fun p =>
    if pageSelected workspace_id kb_id p ∧ ¬ pageSkipped mode p then
      { p with indexed_content_hash := p.content_hash }
    else p)
  (pagesAfter, res.1, res.2.1, res.2.2)

theorem rebuild_filter_other (chunkFn : String → List ChunkItem)
    (embedFn : List String → List (List ℚ)) (sha : String → String)
    (embedding_model : String) (chunks : List IdxChunk) (q : IdxPage) (pid : Nat)
    (hne : q.id ≠ pid) :
    ((rebuild_page_chunks chunkFn embedFn sha embedding_model chunks q).1.filter
        (fun c => decide (c.page_id = pid)))
      = chunks.filter (fun c => decide (c.page_id = pid)) := by
  have hpred : ∀ c : IdxChunk,
      (decide (c.page_id = pid) && decide (c.page_id ≠ q.id)) = decide (c.page_id = pid) := by
    intro c
    by_cases hc : c.page_id = pid
    · have h2 : pid ≠ q.id := fun h => hne h.symm
      simp [hc, h2]
    · simp [hc]
  have hbase : (chunks.filter (fun c => decide (c.page_id ≠ q.id))).filter
      (fun c => decide (c.page_id = pid)) = chunks.filter (fun c => decide (c.page_id = pid)) := by
    rw [List.filter_filter]
    exact List.filter_congr (fun c _ => hpred c)
  unfold rebuild_page_chunks
  by_cases hitems : (chunkFn q.content_markdown).isEmpty = true
  · rw [if_pos hitems]
    exact hbase
  · rw [if_neg hitems]
    rw [List.filter_append]
    have hrows : (((chunkFn q.content_markdown).zip
        (embedFn ((chunkFn q.content_markdown).map (fun ci => ci.text)))).enum.map
        (fun p =>
          ({ page_id := q.id, chunk_index := p.1, section_path := p.2.1.section_path,
             chunk_text := p.2.1.text, chunk_hash := sha p.2.1.text,
             token_count := approx_token_count p.2.1.text, embedding := p.2.2,
             embedding_model := embedding_model } : IdxChunk))).filter
        (fun c => decide (c.page_id = pid)) = [] := by
    
      rw [List.filter_eq_nil_iff]
      intro a ha
      simp only [List.mem_map] at ha
      obtain ⟨x, _, rfl⟩ := ha
      simpa using hne
    rw [hrows, List.append_nil]
    exact hbase

theorem indexFold_preserves (chunkFn : String → List ChunkItem)
    (embedFn : List String → List (List ℚ)) (sha : String → String)
    (embedding_model : String) (mode : String) (pid : Nat) (sel : List IdxPage) :
    ∀ acc : List IdxChunk × Nat × Nat,
      (∀ q ∈ sel, ¬ pageSkipped mode q → q.id ≠ pid) →
      ((sel.foldl (indexStep chunkFn embedFn sha embedding_model mode) acc).1.filter
          (fun c => decide (c.page_id = pid)))
        = acc.1.filter (fun c => decide (c.page_id = pid)) := by
  induction sel with
  | nil => intro acc _; rfl
  | cons q sel ih =>
    intro acc hq
    simp only [List.foldl_cons]
    rw [ih _ (fun q' hq' => hq q' (by simp [hq']))]
    unfold indexStep
    by_cases hskip : pageSkipped mode q
    · rw [if_pos hskip]
    · rw [if_neg hskip]
      exact rebuild_filter_other chunkFn embedFn sha embedding_model acc.1 q pid
        (hq q (by simp) hskip)

/-- C9: in incremental mode, a page whose `indexed_content_hash` is
non-empty and equal to its `content_hash` keeps its chunk rows (indices,
texts, hashes, embeddings) and its page row exactly as they were. -/
theorem C9_incremental_skips_up_to_date (chunkFn : String → List ChunkItem)
    (embedFn : List String → List (List ℚ)) (sha : String → String)
    (embedding_model_name : String) (workspace_id kb_id : String)
    (pages : List IdxPage) (chunks : List IdxChunk) (p : IdxPage)
    (hnd : (pages.map (fun q => q.id)).Nodup) (hp : p ∈ pages)
    (h1 : p.indexed_content_hash ≠ "") (h2 : p.indexed_content_hash = p.content_hash) :
    ((index_pages_to_chunks chunkFn embedFn sha embedding_model_name workspace_id kb_id
        "incremental" pages chunks).2.1.filter (fun c => decide (c.page_id = p.id)))
      = chunks.filter (fun c => decide (c.page_id = p.id)) ∧
    p ∈ (index_pages_to_chunks chunkFn embedFn sha embedding_model_name workspace_id kb_id
        "incremental" pages chunks).1 := by
  have hskip_p : pageSkipped "incremental" p := ⟨rfl, h1, h2⟩
  constructor
  · unfold index_pages_to_chunks
    apply indexFold_preserves
    intro q hq hnskip hqp
    have hqpages : q ∈ pages := List.mem_of_mem_filter hq
    have : q = p := List.inj_on_of_nodup_map hnd hqpages hp hqp
    exact hnskip (this ▸ hskip_p)
  · unfold index_pages_to_chunks
    simp only [List.mem_map]
    refine ⟨p, hp, ?_⟩
    have hcond : ¬ (pageSelected workspace_id kb_id p ∧ ¬ pageSkipped "incremental" p) := by
      intro hc
      exact hc.2 hskip_p
    rw [if_neg hcond]

/-- C9 witness: an up-to-date page keeps its chunk row untouched. -/
theorem C9_witness :
    ((index_pages_to_chunks (fun _ => [⟨"s", "t"⟩]) (fun ts => ts.map (fun _ => []))
        (fun _ => "h") "m" "default" "default" "incremental"
        [⟨1, "default", "default", 200, "md", "h", "h"⟩]
        [⟨1, 0, "s", "t", "h", 1, [], "m"⟩]).2.1.filter
          (fun c => decide (c.page_id = 1)))
      = [⟨1, 0, "s", "t", "h", 1, [], "m"⟩].filter (fun c => decide (c.page_id = 1)) ∧
    (⟨1, "default", "default", 200, "md", "h", "h"⟩ : IdxPage) ∈
      (index_pages_to_chunks (fun _ => [⟨"s", "t"⟩]) (fun ts => ts.map (fun _ => []))
        (fun _ => "h") "m" "default" "default" "incremental"
        [⟨1, "default", "default", 200, "md", "h", "h"⟩]
        [⟨1, 0, "s", "t", "h", 1, [], "m"⟩]).1 :=
  C9_incremental_skips_up_to_date (fun _ => [⟨"s", "t"⟩]) (fun ts => ts.map (fun _ => []))
    (fun _ => "h") "m" "default" "default"
    [⟨1, "default", "default", 200, "md", "h", "h"⟩]
    [⟨1, 0, "s", "t", "h", 1, [], "m"⟩]
    ⟨1, "default", "default", 200, "md", "h", "h"⟩
    (by decide) (by decide) (by decide) (by decide)

/-! ## Crawler counters (`crawler/pipeline.py`) -/

/-- `CrawlResult` dataclass (crawler/pipeline.py lines 23-28). -/
structure CrawlResult where
  discovered : Nat
  fetched : Nat
  succeeded : Nat
  failed : Nat
deriving DecidableEq, Repr

/-- The loop state of `crawl_and_store_pages`: frontier, seen set,
visited set and the three counters. -/
structure CrawlState where
  q : List String
  seen : List String
  visited : List String
  fetched : Nat
  succeeded : Nat
  failed : Nat
deriving DecidableEq, Repr

/-- The outcome of `_fetch_html` plus extraction for one URL: an
exception (after retries), or a response with its HTTP status, whether
the stored content hash equals the new hash, and the page's outbound
hrefs. -/
inductive FetchOutcome where
  | exc : FetchOutcome
  | page (status : Nat) (hashMatches : Bool) (hrefs : List String) : FetchOutcome

/-- One canonicalize-and-filter step of `_discover_links` on a single
href: filtered out, admitted as a canonical url, or an exception —
`_canonicalize_url` (crawler/pipeline.py lines 218-235) has no guard and
`urljoin` can raise `ValueError` on malformed hrefs, which propagates
out of `_discover_links`.  A parse failure of `BeautifulSoup(html,
"lxml")` is modelled as an exception on the first href. -/
inductive LinkStep where
  | skip : LinkStep
  | keep (url : String) : LinkStep
  | exc : LinkStep

/-- The href loop of `_discover_links` (crawler/pipeline.py lines
258-275): `linkOk` is the canonicalize-and-filter pipeline
(`_canonicalize_url`, `_is_allowed_url`, include/exclude patterns) for
the current page; unseen admitted urls are appended to `seen` and the
frontier, stopping once `len(seen) >= max_pages`.  An exception aborts
the loop, keeping the mutations made so far; the flag reports whether
one was raised. -/
def discoverGo (linkOk : String → LinkStep) (maxPages : Int) :
    List String → List String → List String → (List String × List String) × Bool
  | [], seen, q => ((seen, q), false)
  | h :: rest, seen, q =>
    match linkOk h with
    | LinkStep.skip => discoverGo linkOk maxPages rest seen q
    | LinkStep.exc => ((seen, q), true)
    | LinkStep.keep url =>
      if url ∈ seen then discoverGo linkOk maxPages rest seen q
      else
        if maxPages ≤ (((seen ++ [url]).length : Nat) : Int) then ((seen ++ [url], q ++ [url]), false)
        else discoverGo linkOk maxPages rest (seen ++ [url]) (q ++ [url])

/-- `_discover_links` (crawler/pipeline.py lines 238-275), including the
early return when the page budget is already reached; the flag reports
an escaped exception. -/
def discover_links (linkOk : String → LinkStep) (hrefs : List String) (maxPages : Int)
    (seen q : List String) : (List String × List String) × Bool :=
  if maxPages ≤ ((seen.length : Nat) : Int) then ((seen, q), false)
  else discoverGo linkOk maxPages hrefs seen q

/-- The `while q and len(visited) < max_pages` loop of
`crawl_and_store_pages` (crawler/pipeline.py lines 111-173).  Page
upserts/touches are external session effects; an HTTP status ≥ 400 or an
exception before the success increment counts as failed, every other
fetch counts as succeeded (whether the incremental branch touches or
upserts the page) and discovers links.  The discovery calls (lines 143
and 158) sit inside the `try` after `succeeded += 1`, so an exception
escaping `_discover_links` lands in the outer `except` and increments
`failed` as well, double-counting that URL. -/
def crawl_loop (fetch : String → FetchOutcome) (linkOk : String → String → LinkStep)
    (maxPages : Int) (st : CrawlState) : CrawlState :=
  match hq : st.q with
  | [] => st
  | url :: rest =>
    if h : (st.visited.length : Int) < maxPages then
      if url ∈ st.visited then
        crawl_loop fetch linkOk maxPages { st with q := rest }
      else
        let st1 : CrawlState :=
          { st with q := rest, visited := url :: st.visited, fetched := st.fetched + 1 }
        match fetch url with
        | FetchOutcome.exc =>
          crawl_loop fetch linkOk maxPages { st1 with failed := st1.failed + 1 }
        | FetchOutcome.page status _hashMatches hrefs =>
          if 400 ≤ status then
            crawl_loop fetch linkOk maxPages { st1 with failed := st1.failed + 1 }
          else
            let dq := discover_links (linkOk url) hrefs maxPages st1.seen st1.q
            if dq.2 then
              crawl_loop fetch linkOk maxPages
                { st1 with succeeded := st1.succeeded + 1, failed := st1.failed + 1, seen := dq.1.1, q := dq.1.2 }
            else
              crawl_loop fetch linkOk maxPages
                { st1 with succeeded := st1.succeeded + 1, seen := dq.1.1, q := dq.1.2 }
    else st
termination_by (maxPages.toNat - st.visited.length, st.q.length)
decreasing_by
  all_goals try simp only [hq, List.length_cons]
  all_goals omega

/-- The seeding loop of crawler/pipeline.py lines 87-102: `seedOk` is
the canonicalize-and-filter admission for seed urls; admitted unseen
urls fill `seen` and the initial frontier. -/
def seedFrontier (seedOk : String → Option String) (initial : List String) :
    List String × List String :=
  initial.foldl
    (fun (p : List String × List String) u =>
      match seedOk u with
      | none => p
      | some url => if url ∈ p.1 then p else (p.1 ++ [url], p.2 ++ [url]))
    ([], [])

/-- `crawl_and_store_pages` (crawler/pipeline.py lines 55-175): seed the
frontier, walk it, and report the counters.  Sitemap/seed collection and
page persistence are external I/O; `initial` is the collected seed list
of lines 73-85. -/
def crawlFinal (fetch : String → FetchOutcome)
    (linkOk : String → String → LinkStep) (seedOk : String → Option String)
    (maxPages : Int) (initial : List String) : CrawlState :=
  crawl_loop fetch linkOk maxPages
    ⟨(seedFrontier seedOk initial).2, (seedFrontier seedOk initial).1, [], 0, 0, 0⟩

def crawl_and_store_pages (fetch : String → FetchOutcome)
    (linkOk : String → String → LinkStep) (seedOk : String → Option String)
    (maxPages : Int) (initial : List String) : CrawlResult :=
  ⟨max (seedFrontier seedOk initial).1.length
      (crawlFinal fetch linkOk seedOk maxPages initial).seen.length,
   (crawlFinal fetch linkOk seedOk maxPages initial).fetched,
   (crawlFinal fetch linkOk seedOk maxPages initial).succeeded,
   (crawlFinal fetch linkOk seedOk maxPages initial).failed⟩

theorem discoverGo_no_exc (linkOk : String → LinkStep)
    (hnx : ∀ h, linkOk h ≠ LinkStep.exc) (maxPages : Int) :
    ∀ hrefs seen q, (discoverGo linkOk maxPages hrefs seen q).2 = false := by
  intro hrefs
  induction hrefs with
  | nil => intro seen q; rfl
  | cons h rest ih =>
    intro seen q
    unfold discoverGo
    cases hl : linkOk h with
    | skip => exact ih seen q
    | exc => exact absurd hl (hnx h)
    | keep url =>
      dsimp only
      by_cases hmem : url ∈ seen
      · rw [if_pos hmem]
        exact ih seen q
      · rw [if_neg hmem]
        by_cases hcap : maxPages ≤ (((seen ++ [url]).length : Nat) : Int)
        · rw [if_pos hcap]
        · rw [if_neg hcap]
          exact ih _ _

theorem discover_links_no_exc (linkOk : String → LinkStep)
    (hnx : ∀ h, linkOk h ≠ LinkStep.exc) (hrefs : List String) (maxPages : Int)
    (seen q : List String) : (discover_links linkOk hrefs maxPages seen q).2 = false := by
  unfold discover_links
  by_cases hcap : maxPages ≤ ((seen.length : Nat) : Int)
  · rw [if_pos hcap]
  · rw [if_neg hcap]
    exact discoverGo_no_exc linkOk hnx maxPages hrefs seen q

/-- The loop invariant behind C10: every fetched URL bumps at least one
and at most two of the outcome counters (two exactly when link discovery
raises after the success increment); when the per-href pipeline cannot
raise, the split is exact.  The fetch counter counts the visited urls,
which never exceed the (clamped) page budget. -/
def crawlInv (linkOk : String → String → LinkStep) (maxPages : Int) (st : CrawlState) : Prop :=
  st.fetched ≤ st.succeeded + st.failed ∧
  st.succeeded + st.failed ≤ 2 * st.fetched ∧
  ((∀ u h, linkOk u h ≠ LinkStep.exc) → st.fetched = st.succeeded + st.failed) ∧
  st.fetched = st.visited.length ∧
  (st.visited.length : Int) ≤ max maxPages 0

theorem crawl_loop_inv (fetch : String → FetchOutcome)
    (linkOk : String → String → LinkStep) (maxPages : Int) :
    ∀ (V Q : Nat) (st : CrawlState), maxPages.toNat - st.visited.length ≤ V →
      st.q.length ≤ Q → crawlInv linkOk maxPages st →
      crawlInv linkOk maxPages (crawl_loop fetch linkOk maxPages st) := by
  intro V
  induction V with
  | zero =>
    intro Q st hV _ hinv
    unfold crawl_loop
    cases hq : st.q with
    | nil => exact hinv
    | cons url rest =>
      have hg : ¬ ((st.visited.length : Int) < maxPages) := by omega
      dsimp only
      rw [dif_neg hg]
      exact hinv
  | succ V ihV =>
    intro Q
    induction Q with
    | zero =>
      intro st _ hQ hinv
      unfold crawl_loop
      cases hq : st.q with
      | nil => exact hinv
      | cons url rest => rw [hq] at hQ; simp at hQ
    | succ Q ihQ =>
      intro st hV hQ hinv
      unfold crawl_loop
      cases hq : st.q with
      | nil => exact hinv
      | cons url rest =>
        dsimp only
        by_cases hg : (st.visited.length : Int) < maxPages
        · rw [dif_pos hg]
          by_cases hv : url ∈ st.visited
          · rw [if_pos hv]
            apply ihQ
            · simpa using hV
            · rw [hq] at hQ
              simpa using hQ
            · exact ⟨hinv.1, hinv.2.1, hinv.2.2.1, hinv.2.2.2.1, hinv.2.2.2.2⟩
          · rw [if_neg hv]
            have hV1 : maxPages.toNat - (url :: st.visited).length ≤ V := by
              simp only [List.length_cons]
              omega
            have hinv1 : ∀ extraS extraF,
                1 ≤ extraS + extraF → extraS + extraF ≤ 2 →
                ((∀ u h, linkOk u h ≠ LinkStep.exc) → extraS + extraF = 1) →
                crawlInv linkOk maxPages
                  { q := rest, seen := st.seen, visited := url :: st.visited,
                    fetched := st.fetched + 1, succeeded := st.succeeded + extraS,
                    failed := st.failed + extraF } := by
              intro extraS extraF hsf1 hsf2 hsfeq
              obtain ⟨i1, i2, i3, i4, i5⟩ := hinv
              unfold crawlInv
              dsimp only
              refine ⟨by omega, by omega, ?_, by rw [i4, List.length_cons], ?_⟩
              · intro hnx
                have he := hsfeq hnx
                have hi := i3 hnx
                omega
              · simp only [List.length_cons]
                push_cast
                omega
            cases hfetch : fetch url with
            | exc =>
              apply ihV rest.length
              · exact hV1
              · exact le_refl _
              · exact hinv1 0 1 (by omega) (by omega) (fun _ => rfl)
            | page status hashMatches hrefs =>
              dsimp only
              by_cases hst : 400 ≤ status
              · rw [if_pos hst]
                apply ihV rest.length
                · exact hV1
                · exact le_refl _
                · exact hinv1 0 1 (by omega) (by omega) (fun _ => rfl)
              · rw [if_neg hst]
                by_cases hdq : (discover_links (linkOk url) hrefs maxPages st.seen rest).2 = true
                · rw [if_pos hdq]
                  apply ihV
                    ((discover_links (linkOk url) hrefs maxPages st.seen rest).1.2.length)
                  · exact hV1
                  · exact le_refl _
                  · have heq : (∀ u h, linkOk u h ≠ LinkStep.exc) → 1 + 1 = 1 := by
                      intro hnx
                      have hfx := discover_links_no_exc (linkOk url) (fun h => hnx url h)
                        hrefs maxPages st.seen rest
                      rw [hfx] at hdq
                      simp at hdq
                    have h11 := hinv1 1 1 (by omega) (by omega) heq
                    obtain ⟨i1, i2, i3, i4, i5⟩ := h11
                    exact ⟨by simpa using i1, by simpa using i2, by simpa using i3,
                      by simpa using i4, by simpa using i5⟩
                · rw [if_neg hdq]
                  apply ihV
                    ((discover_links (linkOk url) hrefs maxPages st.seen rest).1.2.length)
                  · exact hV1
                  · exact le_refl _
                  · have h10 := hinv1 1 0 (by omega) (by omega) (fun _ => rfl)
                    obtain ⟨i1, i2, i3, i4, i5⟩ := h10
                    exact ⟨by simpa using i1, by simpa using i2, by simpa using i3,
                      by simpa using i4, by simpa using i5⟩
        · rw [dif_neg hg]
          exact hinv

/-- C10 (amended): every crawl run satisfies
`fetched ≤ succeeded + failed ≤ 2 * fetched`, with equality
`fetched = succeeded + failed` whenever the per-href discovery pipeline
cannot raise (discovery runs inside the `try` after `succeeded += 1`, so
an href that makes `urljoin` raise gets the URL counted in both
counters); and `fetched ≤ max(max_pages, 0)` — so `fetched ≤ max_pages`
whenever the budget is nonnegative, while a negative budget yields zero
fetches, which is not `≤ max_pages`. -/
theorem C10_crawl_counters (fetch : String → FetchOutcome)
    (linkOk : String → String → LinkStep) (seedOk : String → Option String)
    (maxPages : Int) (initial : List String) :
    (crawl_and_store_pages fetch linkOk seedOk maxPages initial).fetched
      ≤ (crawl_and_store_pages fetch linkOk seedOk maxPages initial).succeeded
        + (crawl_and_store_pages fetch linkOk seedOk maxPages initial).failed ∧
    (crawl_and_store_pages fetch linkOk seedOk maxPages initial).succeeded
        + (crawl_and_store_pages fetch linkOk seedOk maxPages initial).failed
      ≤ 2 * (crawl_and_store_pages fetch linkOk seedOk maxPages initial).fetched ∧
    ((∀ u h, linkOk u h ≠ LinkStep.exc) →
      (crawl_and_store_pages fetch linkOk seedOk maxPages initial).fetched
        = (crawl_and_store_pages fetch linkOk seedOk maxPages initial).succeeded
          + (crawl_and_store_pages fetch linkOk seedOk maxPages initial).failed) ∧
    ((crawl_and_store_pages fetch linkOk seedOk maxPages initial).fetched : Int)
      ≤ max maxPages 0 := by
  have h := crawl_loop_inv fetch linkOk maxPages maxPages.toNat
    (seedFrontier seedOk initial).2.length
    ⟨(seedFrontier seedOk initial).2, (seedFrontier seedOk initial).1, [], 0, 0, 0⟩
    (by simp) (le_refl _) ⟨Nat.zero_le _, Nat.zero_le _, fun _ => rfl, rfl, by simp⟩
  obtain ⟨i1, i2, i3, i4, i5⟩ := h
  unfold crawl_and_store_pages crawlFinal
  refine ⟨i1, i2, i3, ?_⟩
  rw [i4]
  exact i5

/-- C10 witness: the equality half of the counter theorem at a concrete
run whose link pipeline never raises. -/
theorem C10_witness :
    (crawl_and_store_pages (fun _ => FetchOutcome.page 200 false [])
        (fun _ _ => LinkStep.skip) (fun u => some u) 5 ["u"]).fetched
      = (crawl_and_store_pages (fun _ => FetchOutcome.page 200 false [])
          (fun _ _ => LinkStep.skip) (fun u => some u) 5 ["u"]).succeeded
        + (crawl_and_store_pages (fun _ => FetchOutcome.page 200 false [])
            (fun _ _ => LinkStep.skip) (fun u => some u) 5 ["u"]).failed :=
  (C10_crawl_counters (fun _ => FetchOutcome.page 200 false [])
    (fun _ _ => LinkStep.skip) (fun u => some u) 5 ["u"]).2.2.1
    (fun _ _ hc => LinkStep.noConfusion hc)

theorem crawl_loop_stop (fetch : String → FetchOutcome)
    (linkOk : String → String → LinkStep) (maxPages : Int) (st : CrawlState)
    (hg : ¬ ((st.visited.length : Int) < maxPages)) :
    crawl_loop fetch linkOk maxPages st = st := by
  unfold crawl_loop
  cases hq : st.q with
  | nil => rfl
  | cons url rest =>
    dsimp only
    rw [dif_neg hg]

/-- C10 counterexample: (a) a page fetch that succeeds but whose link
discovery raises (here on the lone href) is counted in both counters —
fetched 1, succeeded 1, failed 1, so `fetched = succeeded + failed`
fails; (b) a crawl run with a negative page budget fetches nothing, and
`fetched ≤ max_pages` fails since `0 ≤ -1` is false. -/
theorem C10_counterexample :
    ((crawl_and_store_pages (fun _ => FetchOutcome.page 200 false ["h"])
        (fun _ _ => LinkStep.exc) (fun u => some u) 5 ["u"]).fetched = 1 ∧
     (crawl_and_store_pages (fun _ => FetchOutcome.page 200 false ["h"])
        (fun _ _ => LinkStep.exc) (fun u => some u) 5 ["u"]).succeeded = 1 ∧
     (crawl_and_store_pages (fun _ => FetchOutcome.page 200 false ["h"])
        (fun _ _ => LinkStep.exc) (fun u => some u) 5 ["u"]).failed = 1) ∧
    ¬ (((crawl_and_store_pages (fun _ => FetchOutcome.exc) (fun _ _ => LinkStep.skip)
        (fun u => some u) (-1) ["u"]).fetched : Int) ≤ -1) := by
  have hstep2 : crawl_loop (fun _ => FetchOutcome.page 200 false ["h"])
      (fun _ _ => LinkStep.exc) 5 ⟨[], ["u"], ["u"], 1, 1, 1⟩
      = ⟨[], ["u"], ["u"], 1, 1, 1⟩ := by
    unfold crawl_loop
    rfl
  have hA : crawl_loop (fun _ => FetchOutcome.page 200 false ["h"])
      (fun _ _ => LinkStep.exc) 5 ⟨["u"], ["u"], [], 0, 0, 0⟩
      = ⟨[], ["u"], ["u"], 1, 1, 1⟩ := by
    unfold crawl_loop
    dsimp only
    rw [dif_pos (by decide), if_neg (by decide : ¬ ("u" ∈ ([] : List String)))]
    dsimp only [discover_links, discoverGo]
    rw [if_neg (by decide : ¬ ((5 : Int) ≤ (((["u"] : List String).length : Nat) : Int)))]
    exact hstep2
  have hseedA : seedFrontier (fun u => some u) ["u"] = (["u"], ["u"]) := rfl
  have hstopB : crawl_loop (fun _ => FetchOutcome.exc) (fun _ _ => LinkStep.skip) (-1)
      ⟨["u"], ["u"], [], 0, 0, 0⟩ = ⟨["u"], ["u"], [], 0, 0, 0⟩ :=
    crawl_loop_stop _ _ _ _ (by decide)
  constructor
  · unfold crawl_and_store_pages crawlFinal
    rw [hseedA]
    dsimp only
    rw [hA]
    exact ⟨rfl, rfl, rfl⟩
  · unfold crawl_and_store_pages crawlFinal
    rw [hseedA]
    dsimp only
    rw [hstopB]
    decide

/-! ## Answer pipeline (`rag/pipeline.py`) -/

/-- The retrieval/answer settings consumed by `prepare_rag` and
`answer_with_rag` (config.py). -/
structure RagSettings where
  query_rewrite_enabled : Bool
  memory_summary_enabled : Bool
  rag_top_n : Nat
  rag_max_sources : Nat
  rag_snippet_max_chars : Nat
  rag_context_max_chars : Nat
  inline_citations_enabled : Bool
  answer_append_sources : Bool
deriving DecidableEq, Repr

/-- One entry of the `sources` list (a Python dict with optional `ref`). -/
structure SourceEntry where
  ref : Option Nat
  url : String
  title : String
  section_path : String
  snippet : String
deriving DecidableEq, Repr

/-- `RagPrepared` (pipeline.py lines 31-39), without the debug/meta
observability payloads. -/
structure RagPrepared where
  messages : Option (List (String × String))
  sources : List SourceEntry
  direct_answer : Option String
deriving Repr

/-- `RagAnswer` (pipeline.py lines 22-28), without debug/usage/meta. -/
structure RagAnswer where
  answer : String
  sources : List SourceEntry
deriving Repr

/-- `str.rstrip()`. -/
def pyRStrip (s : String) : String :=
  String.mk ((s.data.reverse.dropWhile isPySpace).reverse)

/-- `_append_anchor` (pipeline.py lines 87-94); `slug` is
`_slugify_anchor` (pure regex-based string rewriting, irrelevant to
every claim, threaded as a function). -/
def append_anchor (slug : String → String) (url section_path : String) : String :=
  if url = "" ∨ url.contains '#' then url
  else
    let last := pyStrip ((section_path.splitOn (" > ")).getLastD (""))
    let anchor := slug last
    if anchor = "" then url else url ++ "#" ++ anchor

/-- `_build_inline_sources` (pipeline.py lines 150-162); `clampText` is
`utils.clamp_text` (utils.py is not part of the provided sources). -/
def build_inline_sources (slug : String → String) (clampText : String → Nat → String)
    (chunks : List RetrievedChunk) (snippet_max_chars max_sources : Nat) : List SourceEntry :=
  (chunks.take max_sources).enum.map
    (fun p =>
      { ref := some (p.1 + 1), url := append_anchor slug p.2.url p.2.section_path,
        title := p.2.title, section_path := p.2.section_path,
        snippet := clampText (pyStrip (p.2.text.replace ("\n") (" "))) snippet_max_chars })

/-- The dedup-by-url loop of `_build_sources` (pipeline.py lines 54-73):
append an entry per unseen anchored url, stopping once `max_sources`
entries exist (note the `break` runs after the append). -/
def build_sources_go (slug : String → String) (max_sources : Nat) :
    List RetrievedChunk → List String → Nat → List SourceEntry
  | [], _, _ => []
  | c :: rest, seen, count =>
    let url := append_anchor slug c.url c.section_path
    if url ∈ seen then build_sources_go slug max_sources rest seen count
    else
      let entry : SourceEntry := ⟨none, url, c.title, c.section_path, ""⟩
      if max_sources ≤ count + 1 then [entry]
      else entry :: build_sources_go slug max_sources rest (url :: seen) (count + 1)

/-- `_build_sources` (pipeline.py lines 54-73). -/
def build_sources (slug : String → String) (chunks : List RetrievedChunk)
    (max_sources : Nat) : List SourceEntry :=
  build_sources_go slug max_sources (chunks.insertionSort scoreDescRel) [] 0

/-- `_fill_source_snippets` (pipeline.py lines 137-147), returning the
updated source list instead of mutating it. -/
def fill_source_snippets (clampText : String → Nat → String) (sources : List SourceEntry)
    (chunks : List RetrievedChunk) (snippet_max_chars : Nat) : List SourceEntry :=
  let by_url := (chunks.insertionSort scoreDescRel).foldl
    (fun d c => dSetdefault c.url c d) ([] : List (String × RetrievedChunk))
  sources.map
    (fun src =>
      match dLookup src.url by_url with
      | none => src
      | some c =>
        { src with snippet := clampText (pyStrip (c.text.replace ("\n") (" "))) snippet_max_chars })

/-- The block loop of `_build_context` (pipeline.py lines 165-174): stop
before the block that would overflow the character budget. -/
def build_context_go (max_chars : Nat) : List (Nat × RetrievedChunk) → Nat → List String
  | [], _ => []
  | (i, c) :: rest, total =>
    let block := "[" ++ toString i ++ "]\nURL: " ++ c.url ++ "\n标题: " ++ c.title
      ++ "\n章节: " ++ c.section_path ++ "\n内容:\n" ++ c.text ++ "\n"
    if max_chars < total + block.length then []
    else block :: build_context_go max_chars rest (total + block.length)

/-- `_build_context` (pipeline.py lines 165-174). -/
def build_context (chunks : List RetrievedChunk) (max_chars : Nat) : String :=
  pyStrip (String.intercalate ("\n\n")
    (build_context_go max_chars (chunks.enum.map (fun p => (p.1 + 1, p.2))) 0))

/-- The fixed "not found" message (pipeline.py lines 319 and 476). -/
def notFoundAnswer : String :=
  "我在 OneKey 开发者文档中没有检索到直接相关的内容。你可以换一种问法，或提供更具体的关键词（如 SDK 名称/方法名/报错信息）。"

/-- The system prompt (pipeline.py line 344). -/
def systemPrompt : String :=
  "你是 OneKey 开发者文档助手。你必须严格基于提供的“文档片段”回答，不要编造。"

/-- The formatting rules block (pipeline.py lines 363-371). -/
def formattingRules : String :=
  "格式要求（重要）：\n- 请使用 Markdown 输出。\n- 对变量名/方法名/参数名/字段名/命令/路径/报错关键词等“短代码片段”，使用反引号包裹（inline code），例如 `connectId`、`HardwareSDK.init()`。\n- 不要把单个标识符/字段名（例如 `device_id`、`connectId`）单独放在一行或代码块里；尽量写在句子中。\n- 对多行代码/命令/配置使用代码块（fenced code block），并尽量标注语言，例如 ```ts / ```bash / ```json。\n- 代码块优先用于“≥2 行”或需要复制执行的命令/配置；不要为了展示一个词/一个参数就用代码块。\n- 除代码块外，不要把短标识符单独换行。\n\n"

/-- The citation rules block (pipeline.py lines 354-361). -/
def citationRules (n : Nat) : String :=
  "引用规则（重要）：\n- 你只能引用编号 1.." ++ toString n
    ++ "，引用格式为 [数字]，例如 [1]。\n- 每个关键结论/步骤后都要给出至少一个引用；如果文档片段不足以支撑，请明确说“不确定/文档未说明”。\n- 不要在正文里堆砌 URL；只用 [n] 这种 inline citation。\n\n"

/-- The `extra` prefix of the user prompt (pipeline.py lines 346-352). -/
def buildExtra (system_instructions : String) (memory_summary : Option String)
    (history_excerpt : String) : String :=
  (if system_instructions ≠ "" then
      "用户额外要求（如与规则冲突，以规则为准）：\n" ++ system_instructions ++ "\n\n"
    else "")
  ++ (match memory_summary with
      | some m => if m ≠ "" then "对话摘要（压缩记忆）：\n" ++ m ++ "\n\n" else ""
      | none => "")
  ++ (if history_excerpt ≠ "" then "最近对话片段：\n" ++ history_excerpt ++ "\n\n" else "")

/-- The user prompt (pipeline.py lines 373-384). -/
def buildUserPrompt (extra question context formatting citation_rules : String) : String :=
  extra ++ "当前问题：" ++ question ++ "\n\n文档片段（可引用）：\n" ++ context ++ "\n\n"
    ++ formatting ++ citation_rules
    ++ "请用中文给出：\n1) 简要结论（1-3 句）\n2) 具体步骤（分点）\n3) 若文档片段包含代码/配置，请给出对应示例\n4) 注意事项/常见坑（如有）\n"

/-- Modelled from the spec: `compact_conversation` of rag/conversation.py
is not under src/.  Per §4.8 the conversation compactor is LLM-backed:
when invoked it asks the chat model to rewrite the question into a
standalone retrieval query and, for long histories, a compressed
summary.  The model's outputs are the parameters `llmQuery` and
`llmSummary`; the third component counts the chat-provider call it
makes. -/
def compact_conversation (llmQuery : String) (llmSummary : Option String) :
    String × Option String × Nat :=
  (llmQuery, llmSummary, 1)

/-- `_build_references_tail` (pipeline.py lines 118-134). -/
def build_references_tail (sources : List SourceEntry) (inline : Bool) : String :=
  if sources.isEmpty then ""
  else if inline then
    pyRStrip (String.intercalate ("\n")
      (("\n\n参考：") :: sources.enum.map
        (fun p =>
          let ref := match p.2.ref with
            | some r => if r = 0 then p.1 + 1 else r
            | none => p.1 + 1
          let title := pyStrip p.2.title
          let url := pyStrip p.2.url
          if title ≠ "" then "[" ++ toString ref ++ "] " ++ title ++ " - " ++ url
          else "[" ++ toString ref ++ "] " ++ url)))
  else
    pyRStrip (String.intercalate ("\n")
      (("\n\n来源：")
        :: ((sources.filter (fun src => pyStrip src.url ≠ "")).map
            (fun src => "- " ++ pyStrip src.url))))

/-- `prepare_rag` (pipeline.py lines 177-437), without the
timing/debug/meta observability payloads.  External effects are
parameters: `slug` and `clampText` as above, `system_instructions` and
`history_excerpt` stand for the outputs of the conversation helpers on
the request messages, `retrieved` is the result of the retrieval block
(lines 235-295, per-KB search and merge against the store), and
`reranker` is the optional reranker (its failure fallback keeps the
pre-rerank candidates).  Compaction (lines 214-233) runs only when a
chat model is configured and query rewrite or memory summaries are
enabled. -/
def prepare_rag (s : RagSettings) (slug : String → String) (clampText : String → Nat → String)
    (chatAvailable : Bool) (question system_instructions history_excerpt : String)
    (llmQuery : String) (llmSummary : Option String)
    (retrieved : List RetrievedChunk)
    (reranker : Option (List RetrievedChunk → List RetrievedChunk)) : RagPrepared × Nat :=
  let comp :=
    if chatAvailable && (s.query_rewrite_enabled || s.memory_summary_enabled) then
      compact_conversation llmQuery llmSummary
    else (question, none, 0)
  let memory_summary := comp.2.1
  let compactionCalls := comp.2.2
  let ranked :=
    match reranker with
    | some rr => rr retrieved
    | none => retrieved
  let max_ctx :=
    if s.inline_citations_enabled then min s.rag_top_n s.rag_max_sources else s.rag_top_n
  let topn := ranked.take max_ctx
  let sources :=
    if s.inline_citations_enabled then
      build_inline_sources slug clampText topn s.rag_snippet_max_chars max_ctx
    else
      fill_source_snippets clampText (build_sources slug topn s.rag_max_sources) topn
        s.rag_snippet_max_chars
  if topn.isEmpty then
    ({ messages := none, sources := [], direct_answer := some notFoundAnswer }, compactionCalls)
  else
    let context := build_context topn s.rag_context_max_chars
    let extra := buildExtra system_instructions memory_summary history_excerpt
    let citation_rules :=
      if s.inline_citations_enabled then citationRules topn.length else ""
    let user := buildUserPrompt extra question context formattingRules citation_rules
    ({ messages := some [("system", systemPrompt), ("user", user)],
       sources := sources, direct_answer := none }, compactionCalls)

/-- `_sanitize_inline_citations` on strings. -/
def sanitizeStr (s : String) (max_ref : Nat) : String :=
  String.mk (sanitize_inline_citations s.data max_ref)

/-- `_has_any_inline_citation` on strings. -/
def hasAnyInlineCitationStr (s : String) : Bool := has_any_inline_citation s.data

/-- `answer_with_rag` (pipeline.py lines 440-535).  `chat` is the
optional chat provider's `complete` call (messages to content); the
result carries the answer and sources plus the number of chat calls made
during preparation (compaction) and during answer generation. -/
def answer_with_rag (s : RagSettings) (slug : String → String)
    (clampText : String → Nat → String)
    (chat : Option (List (String × String) → String))
    (question system_instructions history_excerpt : String)
    (llmQuery : String) (llmSummary : Option String)
    (retrieved : List RetrievedChunk)
    (reranker : Option (List RetrievedChunk → List RetrievedChunk)) :
    RagAnswer × Nat × Nat :=
  let pr := prepare_rag s slug clampText chat.isSome question system_instructions
    history_excerpt llmQuery llmSummary retrieved reranker
  let prepared := pr.1
  let compactionCalls := pr.2
  match prepared.direct_answer with
  | some a => (⟨a, prepared.sources⟩, compactionCalls, 0)
  | none =>
    match prepared.messages with
    | none => (⟨notFoundAnswer, []⟩, compactionCalls, 0)
    | some msgs =>
      if msgs.isEmpty then (⟨notFoundAnswer, []⟩, compactionCalls, 0)
      else
        match chat with
        | none =>
          let answer := "当前服务暂时没有搜索到可用信息。\n\n下面是检索到的可能的相关文档片段（请优先查看来源链接）：\n"
            ++ String.intercalate ("\n")
              ((prepared.sources.take 5).map
                (fun src =>
                  "- " ++ (if src.title ≠ "" then src.title else src.url)
                    ++ "（" ++ src.url ++ "）"))
          (⟨answer, prepared.sources⟩, compactionCalls, 0)
        | some complete =>
          let content0 := pyStrip (complete msgs)
          let content1 :=
            if s.inline_citations_enabled then
              let c := sanitizeStr content0 prepared.sources.length
              if ¬ prepared.sources.isEmpty ∧ ¬ (hasAnyInlineCitationStr c) then
                pyStrip (c ++ "\n\n（未能在正文中生成引用标记，已在参考中列出来源）")
              else c
            else content0
          let content2 :=
            if ¬ prepared.sources.isEmpty ∧ s.answer_append_sources then
              content1 ++ build_references_tail prepared.sources s.inline_citations_enabled
            else content1
          (⟨content2, prepared.sources⟩, compactionCalls, 1)

/-- Unfolding `answer_with_rag`/`prepare_rag` on an empty ranked list. -/
theorem answer_empty_ranked (s : RagSettings) (slug : String → String)
    (clampText : String → Nat → String)
    (chat : Option (List (String × String) → String))
    (question system_instructions history_excerpt : String)
    (llmQuery : String) (llmSummary : Option String)
    (retrieved : List RetrievedChunk)
    (reranker : Option (List RetrievedChunk → List RetrievedChunk))
    (hranked : (match reranker with
        | some rr => rr retrieved
        | none => retrieved) = []) :
    answer_with_rag s slug clampText chat question system_instructions history_excerpt
        llmQuery llmSummary retrieved reranker =
      (⟨notFoundAnswer, []⟩,
        (if chat.isSome && (s.query_rewrite_enabled || s.memory_summary_enabled) then
            compact_conversation llmQuery llmSummary
          else (question, none, 0)).2.2, 0) := by
  unfold answer_with_rag prepare_rag
  rw [hranked]
  simp

end OnekeyRag

namespace OnekeyRag

/-- C7 counterexample: with the default settings (query rewrite enabled)
and a chat provider configured, a request whose retrieval returns zero
chunks still triggers one chat-model call — conversation compaction runs
before retrieval (pipeline.py lines 214-233) — so "performs no
chat-model call" fails, even though the answer is the fixed not-found
message with no sources and no generation call. -/
theorem C7_counterexample :
    (answer_with_rag ⟨true, true, 8, 6, 300, 12000, true, true⟩ id (fun t _ => t)
        (some (fun _ => "ok")) "q" "" "" "q2" none [] none).2.1 = 1 ∧
    (answer_with_rag ⟨true, true, 8, 6, 300, 12000, true, true⟩ id (fun t _ => t)
        (some (fun _ => "ok")) "q" "" "" "q2" none [] none).1.answer = notFoundAnswer := by
  constructor <;> rfl

/-- C7 (amended): when retrieval produces zero chunks (and the reranker,
if configured, maps an empty candidate list to an empty list), the
pipeline short-circuits: the answer is the fixed not-found message, the
source list is empty, and no generation chat call is made.  Conversation
compaction, which runs before retrieval, may still make one chat call
when query rewrite or memory summaries are enabled. -/
theorem C7_empty_retrieval_short_circuit (s : RagSettings) (slug : String → String)
    (clampText : String → Nat → String)
    (chat : Option (List (String × String) → String))
    (question system_instructions history_excerpt : String)
    (llmQuery : String) (llmSummary : Option String)
    (reranker : Option (List RetrievedChunk → List RetrievedChunk))
    (hrr : ∀ f, reranker = some f → f [] = []) :
    (answer_with_rag s slug clampText chat question system_instructions history_excerpt
        llmQuery llmSummary [] reranker).1.answer = notFoundAnswer ∧
    (answer_with_rag s slug clampText chat question system_instructions history_excerpt
        llmQuery llmSummary [] reranker).1.sources = [] ∧
    (answer_with_rag s slug clampText chat question system_instructions history_excerpt
        llmQuery llmSummary [] reranker).2.2 = 0 := by
  have hranked : (match reranker with
      | some rr => rr []
      | none => ([] : List RetrievedChunk)) = [] := by
    cases reranker with
    | none => rfl
    | some f => exact hrr f rfl
  rw [answer_empty_ranked s slug clampText chat question system_instructions history_excerpt
    llmQuery llmSummary [] reranker hranked]
  exact ⟨rfl, rfl, rfl⟩

/-- C7 witness: the short-circuit theorem at a concrete instance with a
configured reranker. -/
theorem C7_witness :
    (answer_with_rag ⟨true, false, 8, 6, 300, 12000, true, true⟩ id (fun t _ => t)
        (some (fun _ => "ok")) "q" "" "" "q2" none [] (some (fun l => l))).1.answer
        = notFoundAnswer ∧
    (answer_with_rag ⟨true, false, 8, 6, 300, 12000, true, true⟩ id (fun t _ => t)
        (some (fun _ => "ok")) "q" "" "" "q2" none [] (some (fun l => l))).1.sources = [] ∧
    (answer_with_rag ⟨true, false, 8, 6, 300, 12000, true, true⟩ id (fun t _ => t)
        (some (fun _ => "ok")) "q" "" "" "q2" none [] (some (fun l => l))).2.2 = 0 :=
  C7_empty_retrieval_short_circuit ⟨true, false, 8, 6, 300, 12000, true, true⟩ id
    (fun t _ => t) (some (fun _ => "ok")) "q" "" "" "q2" none (some (fun l => l))
    (fun f hf => by cases hf; rfl)

end OnekeyRag
